import Mathlib

/-!
# The System registry of WalletKitCore (`BRCryptoSystem.c`)

A shallow embedding of `src/WalletKitCore/src/crypto/BRCryptoSystem.c`.

* Handles (`BRCryptoNetwork`, `BRCryptoWalletManager`, ...) are C pointers; they are
  modelled by their address, a natural number, and `NULL` is address `0`.
* The `BRCryptoSystemRecord` the functions mutate in place is passed explicitly: a
  function of the source becomes a function from the record before the call to the
  record after it.
* Every call the source makes into a collaborator (reference counting, the listener,
  the wallet managers) is recorded, in program order, in a list of `Effect`s returned
  next to the new record.
* Queries on collaborators (`cryptoNetworkIsAccountInitialized`, ...) and the
  wallet-manager factory are parameters, gathered in `Collaborators`.
-/

namespace WalletKit

/-! ## Handles -/

abbrev BRCryptoNetwork := Nat
abbrev BRCryptoWalletManager := Nat
abbrev BRCryptoListener := Nat
abbrev BRCryptoAccount := Nat
abbrev BRCryptoClient := Nat
abbrev BRCryptoCurrency := Nat
abbrev BRCryptoPeer := Nat
abbrev BRCryptoSyncMode := Nat
abbrev BRCryptoAddressScheme := Nat
abbrev BRCryptoWalletManagerListener := Nat

/-- The null pointer. -/
abbrev NULL : Nat := 0

/-- Modelled from the spec: the enumeration `BRCryptoSystemState` is declared in a header
that is not under `src/`. The source names two enumerators, `CRYPTO_SYSTEM_STATE_CREATED`
and `CRYPTO_SYSTEM_STATE_DELETED`; the spec calls the field an "enumerated lifecycle
value". Any further enumerator the header may declare is `other code`. -/
inductive BRCryptoSystemState
  | CRYPTO_SYSTEM_STATE_CREATED
  | CRYPTO_SYSTEM_STATE_DELETED
  | other (code : Nat)
  deriving DecidableEq

/-- Modelled from the spec: the tagged union `BRCryptoSystemEvent` is declared in a header
that is not under `src/`. Spec, section 3: "{CREATED} | {CHANGED: old state, new state} |
{NETWORK_ADDED: network ref} | {NETWORK_DELETED: network ref} | {MANAGER_ADDED: manager
ref} | {MANAGER_DELETED: manager ref}"; the tags are spelled as the source spells them. -/
inductive BRCryptoSystemEvent
  | CRYPTO_SYSTEM_EVENT_CREATED
  | CRYPTO_SYSTEM_EVENT_CHANGED (oldState newState : BRCryptoSystemState)
  | CRYPTO_SYSTEM_EVENT_NETWORK_ADDED (network : BRCryptoNetwork)
  | CRYPTO_SYSTEM_EVENT_NETWORK_DELETED (network : BRCryptoNetwork)
  | CRYPTO_SYSTEM_EVENT_MANAGER_ADDED (manager : BRCryptoWalletManager)
  | CRYPTO_SYSTEM_EVENT_MANAGER_DELETED (manager : BRCryptoWalletManager)
  deriving DecidableEq

/-- One call into a collaborator, named after the C function called. The `Take` functions
return the handle they are given after acquiring a reference on it; the `Give` functions
release one reference. -/
inductive Effect
  | cryptoListenerTake (listener : BRCryptoListener)
  | cryptoListenerGive (listener : BRCryptoListener)
  | cryptoAccountTake (account : BRCryptoAccount)
  | cryptoAccountGive (account : BRCryptoAccount)
  | cryptoNetworkTake (network : BRCryptoNetwork)
  | cryptoNetworkGive (network : BRCryptoNetwork)
  | cryptoWalletManagerTake (manager : BRCryptoWalletManager)
  | cryptoWalletManagerGive (manager : BRCryptoWalletManager)
  | cryptoListenerGenerateSystemEvent (listener : BRCryptoListener)
      (event : BRCryptoSystemEvent)
  | cryptoListenerCreateWalletManagerListener (listener : BRCryptoListener)
  | cryptoWalletManagerCreate (adapter : BRCryptoWalletManagerListener)
      (client : BRCryptoClient) (account : BRCryptoAccount) (network : BRCryptoNetwork)
      (mode : BRCryptoSyncMode) (scheme : BRCryptoAddressScheme) (path : String)
  | cryptoWalletManagerSetNetworkReachable (manager : BRCryptoWalletManager)
      (isReachable : Bool)
  | cryptoWalletManagerCreateWallet (manager : BRCryptoWalletManager)
      (currency : BRCryptoCurrency)
  | cryptoWalletManagerConnect (manager : BRCryptoWalletManager) (peer : BRCryptoPeer)
  | cryptoWalletManagerDisconnect (manager : BRCryptoWalletManager)
  deriving DecidableEq

/-- Modelled from the spec: `struct BRCryptoSystemRecord` is declared in
`BRCryptoSystemP.h`, which is not under `src/`. The fields are those the source reads and
writes (`state`, `onMainnet`, `isReachable`, `client`, `listener`, `account`, `path`,
`networks`, `managers`, `ref`), with the types of the spec, section 3. The two arrays are
lists, `ref` is the number of shared holders, and the mutex is left out. -/
structure BRCryptoSystemRecord where
  state : BRCryptoSystemState
  onMainnet : Bool
  isReachable : Bool
  client : BRCryptoClient
  listener : BRCryptoListener
  account : BRCryptoAccount
  path : String
  networks : List BRCryptoNetwork
  managers : List BRCryptoWalletManager
  ref : Nat
  deriving DecidableEq

abbrev BRCryptoSystem := BRCryptoSystemRecord

/-- The collaborators the System consults: queries on accounts, networks and managers,
the listener adapter and the wallet-manager factory. None of them is defined in the
source file; the results hold for every choice of them. -/
structure Collaborators where
  cryptoAccountGetFileSystemIdentifier : BRCryptoAccount → String
  cryptoNetworkIsAccountInitialized : BRCryptoNetwork → BRCryptoAccount → Bool
  cryptoNetworkHasCurrency : BRCryptoNetwork → BRCryptoCurrency → Bool
  cryptoNetworkGetUids : BRCryptoNetwork → String
  cryptoWalletManagerHasNetwork : BRCryptoWalletManager → BRCryptoNetwork → Bool
  cryptoListenerCreateWalletManagerListener :
    BRCryptoListener → BRCryptoSystem → BRCryptoWalletManagerListener
  cryptoWalletManagerCreate :
    BRCryptoWalletManagerListener → BRCryptoClient → BRCryptoAccount → BRCryptoNetwork →
      BRCryptoSyncMode → BRCryptoAddressScheme → String → BRCryptoWalletManager

/-! ## The array macros -/

/-- Modelled from the spec: the macro `array_count` of `BRArray.h` (not under `src/`),
the number of entries of an array. -/
def array_count (array : List Nat) : Nat := array.length

/-- Modelled from the spec: the macro `array_add` of `BRArray.h` (not under `src/`);
"appends" (spec, 4.5), the collections being "insertion-ordered". -/
def array_add (array : List Nat) (item : Nat) : List Nat := array ++ [item]

/-- Modelled from the spec: the macro `array_rm` of `BRArray.h` (not under `src/`);
it removes the entry at `idx` and shifts the later entries down, the collections staying
"insertion-ordered" (spec, section 2). -/
def array_rm (array : List Nat) (idx : Nat) : List Nat := array.eraseIdx idx

/-- An array read `array[index]`: `none` when `index` lies outside the array, which is a
fault in C. -/
def array_read (array : List Nat) (index : Nat) : Option Nat := array[index]?

/-! ## Events -/

/-- Modelled from the spec: `cryptoSystemGenerateEvent` is declared in
`BRCryptoSystemP.h`, which is not under `src/`. Events are "pushed to the listener
synchronously" (spec, section 2): the event goes to the System's one listener. -/
def cryptoSystemGenerateEvent (system : BRCryptoSystem) (event : BRCryptoSystemEvent) :
    List Effect :=
  [Effect.cryptoListenerGenerateSystemEvent system.listener event]

/-! ## Construction and accessors -/

/-- Source lines 18-50. `calloc` zero-fills the record and no statement assigns
`system->account`, so the field keeps the null pointer. `CRYPTO_REF_ASSIGN` starts the
reference count at one. -/
def cryptoSystemCreate (env : Collaborators) (client : BRCryptoClient)
    (listener : BRCryptoListener) (account : BRCryptoAccount) (basePath : String)
    (onMainnet : Bool) : BRCryptoSystem × List Effect :=
  let accountFileSystemIdentifier := env.cryptoAccountGetFileSystemIdentifier account
  let system : BRCryptoSystem :=
    { state := BRCryptoSystemState.CRYPTO_SYSTEM_STATE_CREATED
      onMainnet := onMainnet
      isReachable := true
      client := client
      listener := listener
      account := NULL
      path := basePath ++ "/" ++ accountFileSystemIdentifier
      networks := []
      managers := []
      ref := 1 }
  (system,
    [Effect.cryptoListenerTake listener] ++
      cryptoSystemGenerateEvent system BRCryptoSystemEvent.CRYPTO_SYSTEM_EVENT_CREATED)

/-- Source lines 80-83. -/
def cryptoSystemOnMainnet (system : BRCryptoSystem) : Bool := system.onMainnet

/-- Source lines 85-88. -/
def cryptoSystemIsReachable (system : BRCryptoSystem) : Bool := system.isReachable

/-- Source lines 90-96: store the flag, then one call per registered manager. -/
def cryptoSystemSetReachable (system : BRCryptoSystem) (isReachable : Bool) :
    BRCryptoSystem × List Effect :=
  let system1 := { system with isReachable := isReachable }
  (system1,
    system1.managers.map fun manager =>
      Effect.cryptoWalletManagerSetNetworkReachable manager isReachable)

/-- Source lines 98-101. -/
def cryptoSystemGetResolvedPath (system : BRCryptoSystem) : String := system.path

/-- Source lines 103-106. -/
def cryptoSystemGetState (system : BRCryptoSystem) : BRCryptoSystemState := system.state

/-- Source lines 108-121. -/
def cryptoSystemSetState (system : BRCryptoSystem) (state : BRCryptoSystemState) :
    BRCryptoSystem × List Effect :=
  let newState := state
  let oldState := system.state
  let system1 := { system with state := state }
  if oldState ≠ newState then
    (system1,
      cryptoSystemGenerateEvent system1
        (BRCryptoSystemEvent.CRYPTO_SYSTEM_EVENT_CHANGED oldState newState))
  else
    (system1, [])

/-! ## Networks -/

/-- The scan shared by `cryptoSystemHasNetworkFor` and `cryptoSystemHasWalletManagerFor`
(source lines 129-135 and 205-211): the second argument is the part of the array from
`index` on; the result is the index of the first entry identical to `handle`. -/
def arrayScanFrom (handle : Nat) : List Nat → Nat → Option Nat
  | [], _ => none
  | entry :: rest, index =>
    if handle = entry then some index else arrayScanFrom handle rest (index + 1)

/-- Source lines 125-136: `some index` is `CRYPTO_TRUE` with `*forIndex = index`, `none`
is `CRYPTO_FALSE`. -/
def cryptoSystemHasNetworkFor (system : BRCryptoSystem) (network : BRCryptoNetwork) :
    Option Nat :=
  arrayScanFrom network system.networks 0

/-- Source lines 138-142. -/
def cryptoSystemHasNetwork (system : BRCryptoSystem) (network : BRCryptoNetwork) : Bool :=
  (cryptoSystemHasNetworkFor system network).isSome

/-- Source lines 158-162. The first component is the handle returned, `none` standing for
a read outside the array; the function stores nothing and calls nothing, so the record is
returned as it was, with no call. -/
def cryptoSystemGetNetworkAt (system : BRCryptoSystem) (index : Nat) :
    Option BRCryptoNetwork × BRCryptoSystem × List Effect :=
  (if index < array_count system.networks then array_read system.networks index
    else some NULL, system, [])

/-- Source lines 174-184. -/
def cryptoSystemAddNetwork (system : BRCryptoSystem) (network : BRCryptoNetwork) :
    BRCryptoSystem × List Effect :=
  if cryptoSystemHasNetwork system network = false then
    ({ system with networks := array_add system.networks network },
      [Effect.cryptoNetworkTake network, Effect.cryptoNetworkTake network,
        Effect.cryptoListenerGenerateSystemEvent system.listener
          (BRCryptoSystemEvent.CRYPTO_SYSTEM_EVENT_NETWORK_ADDED network)])
  else
    (system, [])

/-- Source lines 186-197. -/
def cryptoSystemRemNetwork (system : BRCryptoSystem) (network : BRCryptoNetwork) :
    BRCryptoSystem × List Effect :=
  match cryptoSystemHasNetworkFor system network with
  | some index =>
    ({ system with networks := array_rm system.networks index },
      [Effect.cryptoListenerGenerateSystemEvent system.listener
        (BRCryptoSystemEvent.CRYPTO_SYSTEM_EVENT_NETWORK_DELETED network)])
  | none => (system, [])

/-! ## Wallet managers -/

/-- Source lines 201-212. -/
def cryptoSystemHasWalletManagerFor (system : BRCryptoSystem)
    (manager : BRCryptoWalletManager) : Option Nat :=
  arrayScanFrom manager system.managers 0

/-- Source lines 214-219. -/
def cryptoSystemHasWalletManager (system : BRCryptoSystem)
    (manager : BRCryptoWalletManager) : Bool :=
  (cryptoSystemHasWalletManagerFor system manager).isSome

/-- Source lines 235-239. The first component is the handle returned, `none` standing for
a read outside the array; the function stores nothing and calls nothing, so the record is
returned as it was, with no call. -/
def cryptoSystemGetWalletManagerAt (system : BRCryptoSystem) (index : Nat) :
    Option BRCryptoWalletManager × BRCryptoSystem × List Effect :=
  (if index < array_count system.managers then array_read system.managers index
    else some NULL, system, [])

/-- Source lines 250-260. -/
def cryptoSystemAddWalletManager (system : BRCryptoSystem)
    (manager : BRCryptoWalletManager) : BRCryptoSystem × List Effect :=
  if cryptoSystemHasWalletManager system manager = false then
    ({ system with managers := array_add system.managers manager },
      [Effect.cryptoWalletManagerTake manager, Effect.cryptoWalletManagerTake manager,
        Effect.cryptoListenerGenerateSystemEvent system.listener
          (BRCryptoSystemEvent.CRYPTO_SYSTEM_EVENT_MANAGER_ADDED manager)])
  else
    (system, [])

/-- Source lines 262-273. -/
def cryptoSystemRemWalletManager (system : BRCryptoSystem)
    (manager : BRCryptoWalletManager) : BRCryptoSystem × List Effect :=
  match cryptoSystemHasWalletManagerFor system manager with
  | some index =>
    ({ system with managers := array_rm system.managers index },
      [Effect.cryptoListenerGenerateSystemEvent system.listener
        (BRCryptoSystemEvent.CRYPTO_SYSTEM_EVENT_MANAGER_DELETED manager)])
  | none => (system, [])

/-- Source lines 299-301: the loop over the requested currencies. -/
def createWalletsLoop (env : Collaborators) (network : BRCryptoNetwork)
    (manager : BRCryptoWalletManager) : List BRCryptoCurrency → List Effect
  | [] => []
  | currency :: rest =>
    if env.cryptoNetworkHasCurrency network currency then
      Effect.cryptoWalletManagerCreateWallet manager currency ::
        createWalletsLoop env network manager rest
    else
      createWalletsLoop env network manager rest

/-- Source lines 275-304. The array `currencies` of `currenciesCount` entries is a list.
The first component is the handle returned. -/
def cryptoSystemCreateWalletManager (env : Collaborators) (system : BRCryptoSystem)
    (network : BRCryptoNetwork) (mode : BRCryptoSyncMode) (scheme : BRCryptoAddressScheme)
    (currencies : List BRCryptoCurrency) :
    BRCryptoWalletManager × BRCryptoSystem × List Effect :=
  if env.cryptoNetworkIsAccountInitialized network system.account = false then
    (NULL, system, [])
  else
    let adapter := env.cryptoListenerCreateWalletManagerListener system.listener system
    let manager :=
      env.cryptoWalletManagerCreate adapter system.client system.account network mode
        scheme system.path
    let added := cryptoSystemAddWalletManager system manager
    let system1 := added.1
    (manager, system1,
      [Effect.cryptoListenerCreateWalletManagerListener system.listener,
        Effect.cryptoWalletManagerCreate adapter system.client system.account network
          mode scheme system.path] ++
        added.2 ++
        [Effect.cryptoWalletManagerSetNetworkReachable manager system1.isReachable] ++
        createWalletsLoop env network manager currencies)

/-- The handle the factory call of source lines 286-293 returns: the manager built from
the listener adapter, the System's client and account, the network, the sync mode, the
address scheme and the System's path. -/
def factoryManager (env : Collaborators) (system : BRCryptoSystem)
    (network : BRCryptoNetwork) (mode : BRCryptoSyncMode) (scheme : BRCryptoAddressScheme) :
    BRCryptoWalletManager :=
  env.cryptoWalletManagerCreate
    (env.cryptoListenerCreateWalletManagerListener system.listener system)
    system.client system.account network mode scheme system.path

/-- Source lines 306-310. -/
def cryptoSystemConnect (system : BRCryptoSystem) : BRCryptoSystem × List Effect :=
  (system, system.managers.map fun manager => Effect.cryptoWalletManagerConnect manager NULL)

/-- Source lines 312-316. -/
def cryptoSystemDisconnect (system : BRCryptoSystem) : BRCryptoSystem × List Effect :=
  (system, system.managers.map fun manager => Effect.cryptoWalletManagerDisconnect manager)

/-! ## Sequences of operations -/

/-- A call of one of the mutating operations of the System, with its arguments. -/
inductive SystemOp
  | setState (state : BRCryptoSystemState)
  | setReachable (isReachable : Bool)
  | addNetwork (network : BRCryptoNetwork)
  | remNetwork (network : BRCryptoNetwork)
  | addWalletManager (manager : BRCryptoWalletManager)
  | remWalletManager (manager : BRCryptoWalletManager)
  | createWalletManager (network : BRCryptoNetwork) (mode : BRCryptoSyncMode)
      (scheme : BRCryptoAddressScheme) (currencies : List BRCryptoCurrency)
  | connect
  | disconnect
  deriving DecidableEq

/-- Run one operation: the record after the call and the calls made to collaborators. -/
def SystemOp.run (env : Collaborators) (system : BRCryptoSystem) :
    SystemOp → BRCryptoSystem × List Effect
  | SystemOp.setState state => cryptoSystemSetState system state
  | SystemOp.setReachable isReachable => cryptoSystemSetReachable system isReachable
  | SystemOp.addNetwork network => cryptoSystemAddNetwork system network
  | SystemOp.remNetwork network => cryptoSystemRemNetwork system network
  | SystemOp.addWalletManager manager => cryptoSystemAddWalletManager system manager
  | SystemOp.remWalletManager manager => cryptoSystemRemWalletManager system manager
  | SystemOp.createWalletManager network mode scheme currencies =>
    (cryptoSystemCreateWalletManager env system network mode scheme currencies).2
  | SystemOp.connect => cryptoSystemConnect system
  | SystemOp.disconnect => cryptoSystemDisconnect system

/-- An add or a remove of a handle on one of the two collections. -/
inductive RegistryOp
  | add (handle : Nat)
  | rem (handle : Nat)
  deriving DecidableEq

/-- One add or remove on the networks. -/
def applyNetworkOp (system : BRCryptoSystem) : RegistryOp → BRCryptoSystem
  | RegistryOp.add handle => (cryptoSystemAddNetwork system handle).1
  | RegistryOp.rem handle => (cryptoSystemRemNetwork system handle).1

/-- One add or remove on the wallet managers. -/
def applyManagerOp (system : BRCryptoSystem) : RegistryOp → BRCryptoSystem
  | RegistryOp.add handle => (cryptoSystemAddWalletManager system handle).1
  | RegistryOp.rem handle => (cryptoSystemRemWalletManager system handle).1

/-- The reference list of the specification: an add appends the handle if it is absent,
a remove erases it. -/
def referenceApply (list : List Nat) : RegistryOp → List Nat
  | RegistryOp.add handle => if handle ∈ list then list else list ++ [handle]
  | RegistryOp.rem handle => list.erase handle

/-- The reference list after a sequence of adds and removes, from the empty list. -/
def referenceList (ops : List RegistryOp) : List Nat := ops.foldl referenceApply []

/-- One step of `insertedAt`: the position counter, and the position of the add that
inserted `handle` if it is held. -/
def insertedStep (handle : Nat) (acc : Nat × Option Nat) : RegistryOp → Nat × Option Nat
  | RegistryOp.add other =>
    (acc.1 + 1, if other = handle then (if acc.2.isSome then acc.2 else some acc.1) else acc.2)
  | RegistryOp.rem other => (acc.1 + 1, if other = handle then none else acc.2)

/-- The position in `ops` of the add that inserted `handle`: the first add of `handle`
after its last remove (the first add of all when it was never removed); `none` when there
is no such add, that is when `handle` was never added or was removed after its last add. -/
def insertedAt (ops : List RegistryOp) (handle : Nat) : Option Nat :=
  (ops.foldl (insertedStep handle) (0, none)).2

/-- The add that inserted `a` comes before the add that inserted `b`. -/
def insertedBefore (ops : List RegistryOp) (a b : Nat) : Prop :=
  ∃ i j, insertedAt ops a = some i ∧ insertedAt ops b = some j ∧ i < j

/-! ## Reading the record of calls -/

/-- The System event a call delivers to the listener, if the call is such a delivery. -/
def Effect.asSystemEvent : Effect → Option BRCryptoSystemEvent
  | Effect.cryptoListenerGenerateSystemEvent _ event => some event
  | _ => none

/-- The System events delivered to the listener, in order. -/
def systemEvents (effects : List Effect) : List BRCryptoSystemEvent :=
  effects.filterMap Effect.asSystemEvent

/-- Whether an event is a `CRYPTO_SYSTEM_EVENT_CHANGED`. -/
def BRCryptoSystemEvent.isChanged : BRCryptoSystemEvent → Bool
  | BRCryptoSystemEvent.CRYPTO_SYSTEM_EVENT_CHANGED _ _ => true
  | _ => false

/-- Whether a call goes to a wallet manager or constructs one. -/
def Effect.isManagerCall : Effect → Bool
  | Effect.cryptoWalletManagerTake _ => true
  | Effect.cryptoWalletManagerGive _ => true
  | Effect.cryptoListenerCreateWalletManagerListener _ => true
  | Effect.cryptoWalletManagerCreate _ _ _ _ _ _ _ => true
  | Effect.cryptoWalletManagerSetNetworkReachable _ _ => true
  | Effect.cryptoWalletManagerCreateWallet _ _ => true
  | Effect.cryptoWalletManagerConnect _ _ => true
  | Effect.cryptoWalletManagerDisconnect _ => true
  | _ => false

/-- The set-network-reachable calls, in order, as (manager, flag). -/
def reachableCalls (effects : List Effect) : List (BRCryptoWalletManager × Bool) :=
  effects.filterMap fun effect =>
    match effect with
    | Effect.cryptoWalletManagerSetNetworkReachable manager flag => some (manager, flag)
    | _ => none

/-! ## Sample collaborators and a sample System -/

/-- Collaborators for the worked instances: accounts are initialized for the networks with
an even address, a network has the currencies below its own address, and the factory
allocates the manager at address `100 + network`. -/
def sampleEnv : Collaborators where
  cryptoAccountGetFileSystemIdentifier := fun _ => "id"
  cryptoNetworkIsAccountInitialized := fun network _ => network % 2 == 0
  cryptoNetworkHasCurrency := fun network currency => decide (currency < network)
  cryptoNetworkGetUids := fun _ => "uids"
  cryptoWalletManagerHasNetwork := fun manager network => manager == 100 + network
  cryptoListenerCreateWalletManagerListener := fun listener _ => listener
  cryptoWalletManagerCreate := fun _ _ _ network _ _ _ => 100 + network

/-- The number of `CHANGED` events among the calls. -/
def changedCount (effects : List Effect) : Nat :=
  (systemEvents effects).countP BRCryptoSystemEvent.isChanged

/-- The System `cryptoSystemCreate` returns for the sample collaborators. -/
def freshSystem : BRCryptoSystem :=
  (cryptoSystemCreate sampleEnv 1 2 3 "base" true).1

/-- A System holding networks 4, 5, 6 and managers 104, 106. -/
def sampleSystem : BRCryptoSystem where
  state := BRCryptoSystemState.CRYPTO_SYSTEM_STATE_CREATED
  onMainnet := true
  isReachable := true
  client := 1
  listener := 2
  account := 3
  path := "base/id"
  networks := [4, 5, 6]
  managers := [104, 106]
  ref := 1

/-! ## Snapshots and lookups -/

/-- The copy loop of source lines 151-153 and 228-230: each entry is stored in the new
array after `take` acquired a reference on it. The result is the content of the new array
and the calls made. -/
def snapshotLoop (take : Nat → Effect) : List Nat → List Nat × List Effect
  | [] => ([], [])
  | entry :: rest =>
    (entry :: (snapshotLoop take rest).1, take entry :: (snapshotLoop take rest).2)

/-- Source lines 144-156. The first component is the pointer returned, `none` being the
null pointer and `some entries` a freshly allocated array with these entries, paired with
the value stored in `*count`. -/
def cryptoSystemGetNetworks (system : BRCryptoSystem) :
    (Option (List BRCryptoNetwork) × Nat) × BRCryptoSystem × List Effect :=
  let count := array_count system.networks
  if 0 ≠ count then
    let copied := snapshotLoop Effect.cryptoNetworkTake system.networks
    ((some copied.1, count), system, copied.2)
  else
    ((none, count), system, [])

/-- Source lines 221-233, as `cryptoSystemGetNetworks`. -/
def cryptoSystemGetWalletManagers (system : BRCryptoSystem) :
    (Option (List BRCryptoWalletManager) × Nat) × BRCryptoSystem × List Effect :=
  let count := array_count system.managers
  if 0 ≠ count then
    let copied := snapshotLoop Effect.cryptoWalletManagerTake system.managers
    ((some copied.1, count), system, copied.2)
  else
    ((none, count), system, [])

/-- The loop of source lines 167-171: `strcmp` returning zero is equality of the strings. -/
def getNetworkForUidsLoop (env : Collaborators) (uids : String) :
    List BRCryptoNetwork → BRCryptoNetwork × List Effect
  | [] => (NULL, [])
  | entry :: rest =>
    if uids = env.cryptoNetworkGetUids entry then (entry, [Effect.cryptoNetworkTake entry])
    else getNetworkForUidsLoop env uids rest

/-- Source lines 164-172. -/
def cryptoSystemGetNetworkForUids (env : Collaborators) (system : BRCryptoSystem)
    (uids : String) : BRCryptoNetwork × BRCryptoSystem × List Effect :=
  ((getNetworkForUidsLoop env uids system.networks).1, system,
    (getNetworkForUidsLoop env uids system.networks).2)

/-- The loop of source lines 244-247. -/
def getWalletManagerByNetworkLoop (env : Collaborators) (network : BRCryptoNetwork) :
    List BRCryptoWalletManager → BRCryptoWalletManager
  | [] => NULL
  | entry :: rest =>
    if env.cryptoWalletManagerHasNetwork entry network then entry
    else getWalletManagerByNetworkLoop env network rest

/-- Source lines 241-248. -/
def cryptoSystemGetWalletManagerByNetwork (env : Collaborators) (system : BRCryptoSystem)
    (network : BRCryptoNetwork) : BRCryptoWalletManager :=
  getWalletManagerByNetworkLoop env network system.managers

/-! ## Destruction -/

/-- Modelled from the spec: the macro `array_free_all` of `BRArray.h` (not under `src/`);
"release every network and every manager reference held in the two collections, in the
order they were added" (spec, 4.2): one call of `free_func` per entry, first entry
first, before the array itself is freed. -/
def array_free_all (array : List Nat) (free_func : Nat → Effect) : List Effect :=
  array.map free_func

/-- Source lines 52-78. The first component is the record as it stands at line 65, once
the state is set and before the storage is zeroed and freed (lines 76-77), after which
there is no record any more; the mutex is left out. -/
def cryptoSystemRelease (system : BRCryptoSystem) : BRCryptoSystem × List Effect :=
  let stateSet := cryptoSystemSetState system BRCryptoSystemState.CRYPTO_SYSTEM_STATE_DELETED
  let system1 := stateSet.1
  (system1,
    stateSet.2 ++
      array_free_all system1.networks Effect.cryptoNetworkGive ++
      array_free_all system1.managers Effect.cryptoWalletManagerGive ++
      [Effect.cryptoAccountGive system1.account, Effect.cryptoListenerGive system1.listener])

/-! ## Event type names -/

/-- Modelled from the spec: the enumeration `BRCryptoSystemEventType` is declared in a
header that is not under `src/`. The enumerators are the tags the source uses, in the
order of the spec, section 3 ("{CREATED} | {CHANGED} | {NETWORK_ADDED} | {NETWORK_DELETED}
| {MANAGER_ADDED} | {MANAGER_DELETED}"). -/
inductive BRCryptoSystemEventType
  | CRYPTO_SYSTEM_EVENT_CREATED
  | CRYPTO_SYSTEM_EVENT_CHANGED
  | CRYPTO_SYSTEM_EVENT_NETWORK_ADDED
  | CRYPTO_SYSTEM_EVENT_NETWORK_DELETED
  | CRYPTO_SYSTEM_EVENT_MANAGER_ADDED
  | CRYPTO_SYSTEM_EVENT_MANAGER_DELETED
  deriving DecidableEq

/-- Modelled from the spec: the integer value of each enumerator of
`BRCryptoSystemEventType`, C numbering the enumerators from zero in the order of their
declaration. -/
def BRCryptoSystemEventType.toNat : BRCryptoSystemEventType → Nat
  | BRCryptoSystemEventType.CRYPTO_SYSTEM_EVENT_CREATED => 0
  | BRCryptoSystemEventType.CRYPTO_SYSTEM_EVENT_CHANGED => 1
  | BRCryptoSystemEventType.CRYPTO_SYSTEM_EVENT_NETWORK_ADDED => 2
  | BRCryptoSystemEventType.CRYPTO_SYSTEM_EVENT_NETWORK_DELETED => 3
  | BRCryptoSystemEventType.CRYPTO_SYSTEM_EVENT_MANAGER_ADDED => 4
  | BRCryptoSystemEventType.CRYPTO_SYSTEM_EVENT_MANAGER_DELETED => 5

/-- The tag of an event. -/
def BRCryptoSystemEvent.type : BRCryptoSystemEvent → BRCryptoSystemEventType
  | BRCryptoSystemEvent.CRYPTO_SYSTEM_EVENT_CREATED =>
    BRCryptoSystemEventType.CRYPTO_SYSTEM_EVENT_CREATED
  | BRCryptoSystemEvent.CRYPTO_SYSTEM_EVENT_CHANGED _ _ =>
    BRCryptoSystemEventType.CRYPTO_SYSTEM_EVENT_CHANGED
  | BRCryptoSystemEvent.CRYPTO_SYSTEM_EVENT_NETWORK_ADDED _ =>
    BRCryptoSystemEventType.CRYPTO_SYSTEM_EVENT_NETWORK_ADDED
  | BRCryptoSystemEvent.CRYPTO_SYSTEM_EVENT_NETWORK_DELETED _ =>
    BRCryptoSystemEventType.CRYPTO_SYSTEM_EVENT_NETWORK_DELETED
  | BRCryptoSystemEvent.CRYPTO_SYSTEM_EVENT_MANAGER_ADDED _ =>
    BRCryptoSystemEventType.CRYPTO_SYSTEM_EVENT_MANAGER_ADDED
  | BRCryptoSystemEvent.CRYPTO_SYSTEM_EVENT_MANAGER_DELETED _ =>
    BRCryptoSystemEventType.CRYPTO_SYSTEM_EVENT_MANAGER_DELETED

/-- The table `names` of source lines 320-322: it has one entry. -/
def cryptoSystemEventTypeStringNames : List String := ["CRYPTO_WALLET_EVENT_CREATED"]

/-- The read `names [type]` of source line 323, for an enumerator of integer value
`index`: `none` when the index lies outside the table, which is a fault in C. -/
def cryptoSystemEventTypeStringAt (index : Nat) : Option String :=
  cryptoSystemEventTypeStringNames[index]?

/-- Source lines 318-324. -/
def cryptoSystemEventTypeString (type : BRCryptoSystemEventType) : Option String :=
  cryptoSystemEventTypeStringAt type.toNat

/-! ## The read-only operations as calls -/

/-- A call of one of the has / get / lookup operations or of connect / disconnect. -/
inductive SystemQuery
  | onMainnet
  | isReachable
  | getResolvedPath
  | getState
  | hasNetwork (network : BRCryptoNetwork)
  | getNetworks
  | getNetworkAt (index : Nat)
  | getNetworkForUids (uids : String)
  | hasWalletManager (manager : BRCryptoWalletManager)
  | getWalletManagers
  | getWalletManagerAt (index : Nat)
  | getWalletManagerByNetwork (network : BRCryptoNetwork)
  | connect
  | disconnect
  deriving DecidableEq

/-- The record after a read-only call and the calls it made. The functions of the source
that contain no store and no call are embedded as plain functions of the record
(`cryptoSystemHasNetwork`, `cryptoSystemGetState`, ...): for them the record after the
call is the record before it and no call is made. -/
def SystemQuery.run (env : Collaborators) (system : BRCryptoSystem) :
    SystemQuery → BRCryptoSystem × List Effect
  | SystemQuery.onMainnet => (system, [])
  | SystemQuery.isReachable => (system, [])
  | SystemQuery.getResolvedPath => (system, [])
  | SystemQuery.getState => (system, [])
  | SystemQuery.hasNetwork _ => (system, [])
  | SystemQuery.getNetworks => (cryptoSystemGetNetworks system).2
  | SystemQuery.getNetworkAt index => (cryptoSystemGetNetworkAt system index).2
  | SystemQuery.getNetworkForUids uids => (cryptoSystemGetNetworkForUids env system uids).2
  | SystemQuery.hasWalletManager _ => (system, [])
  | SystemQuery.getWalletManagers => (cryptoSystemGetWalletManagers system).2
  | SystemQuery.getWalletManagerAt index => (cryptoSystemGetWalletManagerAt system index).2
  | SystemQuery.getWalletManagerByNetwork _ => (system, [])
  | SystemQuery.connect => cryptoSystemConnect system
  | SystemQuery.disconnect => cryptoSystemDisconnect system

/-! ## More readings of the record of calls -/

/-- The create-wallet calls, in order, as (manager, currency). -/
def createWalletCalls (effects : List Effect) :
    List (BRCryptoWalletManager × BRCryptoCurrency) :=
  effects.filterMap fun effect =>
    match effect with
    | Effect.cryptoWalletManagerCreateWallet manager currency => some (manager, currency)
    | _ => none

/-- Whether a call releases a reference. -/
def Effect.isGive : Effect → Bool
  | Effect.cryptoListenerGive _ => true
  | Effect.cryptoAccountGive _ => true
  | Effect.cryptoNetworkGive _ => true
  | Effect.cryptoWalletManagerGive _ => true
  | _ => false

/-- Whether a call acquires a reference. -/
def Effect.isTake : Effect → Bool
  | Effect.cryptoListenerTake _ => true
  | Effect.cryptoAccountTake _ => true
  | Effect.cryptoNetworkTake _ => true
  | Effect.cryptoWalletManagerTake _ => true
  | _ => false

/-- The sample System once its state is DELETED. -/
def deletedSystem : BRCryptoSystem :=
  { sampleSystem with state := BRCryptoSystemState.CRYPTO_SYSTEM_STATE_DELETED }

/-! ## Arrays in memory -/

/-- The part of the C heap that holds arrays of handles. The System's own two arrays are
at the addresses stored in `system->networks` and `system->managers` and hold the two
lists of the record; `blocks` gives the content of every other allocated array, and `none`
for an address that is not in use. -/
structure Memory where
  system : BRCryptoSystem
  networksAt : Nat
  managersAt : Nat
  blocks : Nat → Option (List Nat)

/-- The array a pointer designates; `none` for an address that is not in use. -/
def Memory.read (memory : Memory) (pointer : Nat) : Option (List Nat) :=
  if pointer = memory.networksAt then some memory.system.networks
  else if pointer = memory.managersAt then some memory.system.managers
  else memory.blocks pointer

/-- The memory once `entries` are stored in the array at `pointer`. -/
def Memory.store (memory : Memory) (pointer : Nat) (entries : List Nat) : Memory :=
  { memory with
    blocks := fun address => if address = pointer then some entries else memory.blocks address }

/-- Source lines 144-156 with the memory explicit. `allocated` is the address `calloc`
returns at line 150; the copy loop of lines 151-153 fills the array at that address, and
that address is the pointer returned (line 155), the null pointer when the count is 0. The
first component is the pointer returned paired with the value stored in `*count`. -/
def cryptoSystemGetNetworksInMemory (memory : Memory) (allocated : Nat) :
    (Nat × Nat) × Memory × List Effect :=
  let count := array_count memory.system.networks
  if 0 ≠ count then
    let copied := snapshotLoop Effect.cryptoNetworkTake memory.system.networks
    ((allocated, count), memory.store allocated copied.1, copied.2)
  else
    ((NULL, count), memory, [])

/-- Source lines 174-184 with the memory explicit: `array_add` stores the new entry in the
System's own array, which stays at its address or, when it has to grow, moves to the
address `relocated`. -/
def cryptoSystemAddNetworkInMemory (memory : Memory) (network : BRCryptoNetwork)
    (relocated : Nat) : Memory × List Effect :=
  if cryptoSystemHasNetwork memory.system network = false then
    ({ memory with
        system := (cryptoSystemAddNetwork memory.system network).1
        networksAt := relocated },
      (cryptoSystemAddNetwork memory.system network).2)
  else
    (memory, [])

/-- Source lines 186-197 with the memory explicit: `array_rm` shifts the entries of the
System's own array, in place. -/
def cryptoSystemRemNetworkInMemory (memory : Memory) (network : BRCryptoNetwork) :
    Memory × List Effect :=
  ({ memory with system := (cryptoSystemRemNetwork memory.system network).1 },
    (cryptoSystemRemNetwork memory.system network).2)

/-- The sample System in memory: its networks array at address 1000, its managers array at
address 2000, no other array allocated. -/
def sampleMemory : Memory where
  system := sampleSystem
  networksAt := 1000
  managersAt := 2000
  blocks := fun _ => none

/-! ## The scan and the array macros as list functions -/

theorem arrayScanFrom_eq (handle : Nat) (array : List Nat) (index : Nat) :
    arrayScanFrom handle array index =
      if handle ∈ array then some (index + array.indexOf handle) else none := by
  induction array generalizing index with
  | nil => simp [arrayScanFrom]
  | cons entry rest ih =>
    by_cases h : handle = entry
    · subst h
      simp [arrayScanFrom]
    · have h2 : ¬ entry = handle := fun e => h e.symm
      rw [arrayScanFrom, if_neg h, ih, List.indexOf_cons_ne _ h2]
      simp only [List.mem_cons, h, false_or]
      split
      · simp only [Option.some.injEq]
        omega
      · rfl

theorem arrayScanFrom_isSome (handle : Nat) (array : List Nat) (index : Nat) :
    (arrayScanFrom handle array index).isSome = decide (handle ∈ array) := by
  rw [arrayScanFrom_eq]
  split <;> simp [*]

theorem arrayScanFrom_none (handle : Nat) (array : List Nat) (index : Nat) :
    arrayScanFrom handle array index = none ↔ handle ∉ array := by
  rw [arrayScanFrom_eq]
  split <;> simp [*]

theorem array_rm_of_scan {handle : Nat} {array : List Nat} {index : Nat}
    (h : arrayScanFrom handle array 0 = some index) :
    handle ∈ array ∧ array_rm array index = array.erase handle := by
  rw [arrayScanFrom_eq] at h
  split at h
  · rename_i hmem
    simp only [Nat.zero_add, Option.some.injEq] at h
    subst h
    exact ⟨hmem, by simp [array_rm]⟩
  · cases h

theorem hasNetwork_iff (system : BRCryptoSystem) (network : BRCryptoNetwork) :
    cryptoSystemHasNetwork system network = true ↔ network ∈ system.networks := by
  simp [cryptoSystemHasNetwork, cryptoSystemHasNetworkFor, arrayScanFrom_isSome]

theorem hasWalletManager_iff (system : BRCryptoSystem) (manager : BRCryptoWalletManager) :
    cryptoSystemHasWalletManager system manager = true ↔ manager ∈ system.managers := by
  simp [cryptoSystemHasWalletManager, cryptoSystemHasWalletManagerFor, arrayScanFrom_isSome]

/-! ## The registry operations against the reference list -/

theorem addNetwork_networks (system : BRCryptoSystem) (network : BRCryptoNetwork) :
    (cryptoSystemAddNetwork system network).1.networks =
      referenceApply system.networks (RegistryOp.add network) := by
  unfold cryptoSystemAddNetwork referenceApply
  by_cases h : network ∈ system.networks
  · have h2 : cryptoSystemHasNetwork system network = true := (hasNetwork_iff _ _).2 h
    simp [h, h2]
  · have h2 : cryptoSystemHasNetwork system network = false := by
      cases hb : cryptoSystemHasNetwork system network
      · rfl
      · exact absurd ((hasNetwork_iff _ _).1 hb) h
    simp [h, h2, array_add]

theorem remNetwork_networks (system : BRCryptoSystem) (network : BRCryptoNetwork) :
    (cryptoSystemRemNetwork system network).1.networks =
      referenceApply system.networks (RegistryOp.rem network) := by
  unfold cryptoSystemRemNetwork referenceApply
  cases hscan : cryptoSystemHasNetworkFor system network with
  | none =>
    have h : network ∉ system.networks := (arrayScanFrom_none _ _ _).1 hscan
    simp [List.erase_of_not_mem h]
  | some index =>
    simp [(array_rm_of_scan hscan).2]

theorem addWalletManager_managers (system : BRCryptoSystem)
    (manager : BRCryptoWalletManager) :
    (cryptoSystemAddWalletManager system manager).1.managers =
      referenceApply system.managers (RegistryOp.add manager) := by
  unfold cryptoSystemAddWalletManager referenceApply
  by_cases h : manager ∈ system.managers
  · have h2 : cryptoSystemHasWalletManager system manager = true :=
      (hasWalletManager_iff _ _).2 h
    simp [h, h2]
  · have h2 : cryptoSystemHasWalletManager system manager = false := by
      cases hb : cryptoSystemHasWalletManager system manager
      · rfl
      · exact absurd ((hasWalletManager_iff _ _).1 hb) h
    simp [h, h2, array_add]

theorem remWalletManager_managers (system : BRCryptoSystem)
    (manager : BRCryptoWalletManager) :
    (cryptoSystemRemWalletManager system manager).1.managers =
      referenceApply system.managers (RegistryOp.rem manager) := by
  unfold cryptoSystemRemWalletManager referenceApply
  cases hscan : cryptoSystemHasWalletManagerFor system manager with
  | none =>
    have h : manager ∉ system.managers := (arrayScanFrom_none _ _ _).1 hscan
    simp [List.erase_of_not_mem h]
  | some index =>
    simp [(array_rm_of_scan hscan).2]

theorem foldl_applyNetworkOp_networks (ops : List RegistryOp) (system : BRCryptoSystem) :
    (ops.foldl applyNetworkOp system).networks = ops.foldl referenceApply system.networks := by
  induction ops generalizing system with
  | nil => rfl
  | cons op ops ih =>
    rw [List.foldl_cons, List.foldl_cons, ih]
    cases op with
    | add handle => rw [applyNetworkOp, addNetwork_networks]
    | rem handle => rw [applyNetworkOp, remNetwork_networks]

theorem foldl_applyManagerOp_managers (ops : List RegistryOp) (system : BRCryptoSystem) :
    (ops.foldl applyManagerOp system).managers = ops.foldl referenceApply system.managers := by
  induction ops generalizing system with
  | nil => rfl
  | cons op ops ih =>
    rw [List.foldl_cons, List.foldl_cons, ih]
    cases op with
    | add handle => rw [applyManagerOp, addWalletManager_managers]
    | rem handle => rw [applyManagerOp, remWalletManager_managers]

/-! ## Facts about the reference list -/

theorem referenceApply_nodup {list : List Nat} (h : list.Nodup) (op : RegistryOp) :
    (referenceApply list op).Nodup := by
  cases op with
  | add handle =>
    show (if handle ∈ list then list else list ++ [handle]).Nodup
    split
    · exact h
    · rename_i hmem
      exact List.Nodup.append h (List.nodup_singleton _) (by simp [hmem])
  | rem handle => exact h.erase handle

theorem referenceList_concat (ops : List RegistryOp) (op : RegistryOp) :
    referenceList (ops ++ [op]) = referenceApply (referenceList ops) op := by
  simp [referenceList, List.foldl_append]

theorem referenceList_nodup (ops : List RegistryOp) : (referenceList ops).Nodup := by
  induction ops using List.reverseRecOn with
  | nil => simp [referenceList]
  | append_singleton ops op ih =>
    rw [referenceList_concat]
    exact referenceApply_nodup ih op

theorem mem_referenceApply_add {list : List Nat} {handle x : Nat} :
    x ∈ referenceApply list (RegistryOp.add handle) ↔ x ∈ list ∨ x = handle := by
  show (x ∈ if handle ∈ list then list else list ++ [handle]) ↔ _
  split
  · rename_i hmem
    constructor
    · exact Or.inl
    · rintro (h | h)
      · exact h
      · exact h ▸ hmem
  · simp

theorem mem_referenceApply_rem {list : List Nat} (hnd : list.Nodup) {handle x : Nat} :
    x ∈ referenceApply list (RegistryOp.rem handle) ↔ x ≠ handle ∧ x ∈ list :=
  hnd.mem_erase_iff

theorem concat_eq_append_cons {α : Type} (ops pre suf : List α) (op a : α) :
    ops ++ [op] = pre ++ a :: suf ↔
      (suf = [] ∧ ops = pre ∧ op = a) ∨
        ∃ suf1, suf = suf1 ++ [op] ∧ ops = pre ++ a :: suf1 := by
  rcases List.eq_nil_or_concat suf with rfl | ⟨suf1, x, rfl⟩
  · constructor
    · intro h
      have h2 := List.append_inj' h rfl
      exact Or.inl ⟨rfl, h2.1, by simpa using h2.2⟩
    · rintro (⟨-, rfl, rfl⟩ | ⟨suf1, h, -⟩)
      · rfl
      · simp at h
  · constructor
    · intro h
      have h1 : ops ++ [op] = (pre ++ a :: suf1) ++ [x] := by simpa using h
      have h2 := List.append_inj' h1 rfl
      have h3 : op = x := by simpa using h2.2
      subst h3
      exact Or.inr ⟨suf1, by simp, h2.1⟩
    · rintro (⟨h, -, -⟩ | ⟨suf2, h, rfl⟩)
      · simp at h
      · have h2 := List.append_inj' (show suf1 ++ [x] = suf2 ++ [op] by simpa using h) rfl
        have h3 : x = op := by simpa using h2.2
        rw [h2.1, h3]
        simp

/-- A handle is in the reference list exactly when it was added and not removed after
that add. -/
theorem mem_referenceList_iff (ops : List RegistryOp) (handle : Nat) :
    handle ∈ referenceList ops ↔
      ∃ pre suf, ops = pre ++ RegistryOp.add handle :: suf ∧ RegistryOp.rem handle ∉ suf := by
  induction ops using List.reverseRecOn with
  | nil => simp [referenceList]
  | append_singleton ops op ih =>
    rw [referenceList_concat]
    cases op with
    | add x =>
      rw [mem_referenceApply_add, ih]
      constructor
      · rintro (⟨pre, suf, rfl, hsuf⟩ | rfl)
        · exact ⟨pre, suf ++ [RegistryOp.add x], by simp, by simp [hsuf]⟩
        · exact ⟨ops, [], rfl, by simp⟩
      · rintro ⟨pre, suf, heq, hsuf⟩
        rcases (concat_eq_append_cons _ _ _ _ _).1 heq with ⟨-, -, h3⟩ | ⟨suf1, h1, h2⟩
        · right
          cases h3
          rfl
        · left
          subst h1
          exact ⟨pre, suf1, h2, fun hm => hsuf (List.mem_append_left _ hm)⟩
    | rem x =>
      rw [mem_referenceApply_rem (referenceList_nodup ops), ih]
      constructor
      · rintro ⟨hne, pre, suf, rfl, hsuf⟩
        refine ⟨pre, suf ++ [RegistryOp.rem x], by simp, ?_⟩
        simp [hsuf, hne]
      · rintro ⟨pre, suf, heq, hsuf⟩
        rcases (concat_eq_append_cons _ _ _ _ _).1 heq with ⟨-, -, h3⟩ | ⟨suf1, h1, h2⟩
        · cases h3
        · subst h1
          refine ⟨?_, pre, suf1, h2, fun hm => hsuf (List.mem_append_left _ hm)⟩
          rintro rfl
          exact hsuf (by simp)

/-! ## The position of the inserting add -/

theorem insertedStep_fst (handle : Nat) (acc : Nat × Option Nat) (op : RegistryOp) :
    (insertedStep handle acc op).1 = acc.1 + 1 := by
  cases op <;> rfl

theorem insertedFold_fst (handle : Nat) (ops : List RegistryOp) :
    (ops.foldl (insertedStep handle) (0, none)).1 = ops.length := by
  induction ops using List.reverseRecOn with
  | nil => rfl
  | append_singleton ops op ih =>
    rw [List.foldl_append, List.foldl_cons, List.foldl_nil, insertedStep_fst, ih]
    simp

theorem insertedAt_concat_add (ops : List RegistryOp) (x handle : Nat) :
    insertedAt (ops ++ [RegistryOp.add x]) handle =
      if x = handle then
        (if (insertedAt ops handle).isSome then insertedAt ops handle else some ops.length)
      else insertedAt ops handle := by
  unfold insertedAt
  rw [List.foldl_append, List.foldl_cons, List.foldl_nil]
  simp only [insertedStep, insertedFold_fst]

theorem insertedAt_concat_rem (ops : List RegistryOp) (x handle : Nat) :
    insertedAt (ops ++ [RegistryOp.rem x]) handle =
      if x = handle then none else insertedAt ops handle := by
  unfold insertedAt
  rw [List.foldl_append, List.foldl_cons, List.foldl_nil]
  simp only [insertedStep]

theorem insertedAt_lt (ops : List RegistryOp) (handle k : Nat)
    (h : insertedAt ops handle = some k) : k < ops.length := by
  induction ops using List.reverseRecOn generalizing k with
  | nil => simp [insertedAt] at h
  | append_singleton ops op ih =>
    rw [List.length_append, List.length_singleton]
    cases op with
    | add x =>
      rw [insertedAt_concat_add] at h
      split at h
      · split at h
        · exact Nat.lt_succ_of_lt (ih k h)
        · cases h
          exact Nat.lt_succ_self _
      · exact Nat.lt_succ_of_lt (ih k h)
    | rem x =>
      rw [insertedAt_concat_rem] at h
      split at h
      · cases h
      · exact Nat.lt_succ_of_lt (ih k h)

theorem mem_referenceList_iff_insertedAt (ops : List RegistryOp) (handle : Nat) :
    handle ∈ referenceList ops ↔ (insertedAt ops handle).isSome = true := by
  induction ops using List.reverseRecOn with
  | nil => simp [referenceList, insertedAt]
  | append_singleton ops op ih =>
    rw [referenceList_concat]
    cases op with
    | add x =>
      rw [mem_referenceApply_add, ih, insertedAt_concat_add]
      by_cases hx : x = handle
      · subst hx
        by_cases hs : (insertedAt ops x).isSome = true <;> simp [hs]
      · have hx2 : ¬ handle = x := fun e => hx e.symm
        simp [hx, hx2]
    | rem x =>
      rw [mem_referenceApply_rem (referenceList_nodup ops), ih, insertedAt_concat_rem]
      by_cases hx : x = handle
      · subst hx
        simp
      · have hx2 : ¬ handle = x := fun e => hx e.symm
        simp [hx, hx2]

theorem referenceList_pairwise (ops : List RegistryOp) :
    (referenceList ops).Pairwise (insertedBefore ops) := by
  induction ops using List.reverseRecOn with
  | nil => simp [referenceList]
  | append_singleton ops op ih =>
    rw [referenceList_concat]
    cases op with
    | add x =>
      have keep : ∀ a i, insertedAt ops a = some i →
          insertedAt (ops ++ [RegistryOp.add x]) a = some i := by
        intro a i hi
        rw [insertedAt_concat_add]
        split
        · simp [hi]
        · exact hi
      have mono : ∀ a b, insertedBefore ops a b →
          insertedBefore (ops ++ [RegistryOp.add x]) a b := by
        rintro a b ⟨i, j, hi, hj, hij⟩
        exact ⟨i, j, keep a i hi, keep b j hj, hij⟩
      show (if x ∈ referenceList ops then referenceList ops
        else referenceList ops ++ [x]).Pairwise _
      split
      · exact ih.imp (mono _ _)
      · rename_i hmem
        rw [List.pairwise_append]
        refine ⟨ih.imp (mono _ _), List.pairwise_singleton _ _, ?_⟩
        intro a ha b hb
        rw [List.mem_singleton] at hb
        subst hb
        have hsome := (mem_referenceList_iff_insertedAt ops a).1 ha
        obtain ⟨i, hi⟩ := Option.isSome_iff_exists.1 hsome
        have hnone : ¬ (insertedAt ops b).isSome = true := fun hs =>
          hmem ((mem_referenceList_iff_insertedAt ops b).2 hs)
        refine ⟨i, ops.length, keep a i hi, ?_, insertedAt_lt ops a i hi⟩
        rw [insertedAt_concat_add]
        simp [hnone]
    | rem x =>
      have hnd := referenceList_nodup ops
      have hsub : ((referenceList ops).erase x).Pairwise (insertedBefore ops) :=
        ih.sublist (List.erase_sublist x _)
      show ((referenceList ops).erase x).Pairwise _
      refine hsub.imp_of_mem ?_
      intro a b ha hb
      have hax : ¬ x = a := fun e => (hnd.mem_erase_iff.1 ha).1 e.symm
      have hbx : ¬ x = b := fun e => (hnd.mem_erase_iff.1 hb).1 e.symm
      rintro ⟨i, j, hi, hj, hij⟩
      refine ⟨i, j, ?_, ?_, hij⟩
      · rw [insertedAt_concat_rem, if_neg hax]
        exact hi
      · rw [insertedAt_concat_rem, if_neg hbx]
        exact hj

/-- The meaning of `insertedAt`: position `k` holds an add of `handle` that found it
absent, and no remove of `handle` follows. -/
theorem insertedAt_eq_some_iff (ops : List RegistryOp) (handle k : Nat) :
    insertedAt ops handle = some k ↔
      ∃ pre suf, ops = pre ++ RegistryOp.add handle :: suf ∧ pre.length = k ∧
        handle ∉ referenceList pre ∧ RegistryOp.rem handle ∉ suf := by
  induction ops using List.reverseRecOn with
  | nil => simp [insertedAt]
  | append_singleton ops op ih =>
    cases op with
    | add x =>
      rw [insertedAt_concat_add]
      constructor
      · intro h
        by_cases hx : x = handle
        · subst hx
          rw [if_pos rfl] at h
          by_cases hs : (insertedAt ops x).isSome = true
          · rw [if_pos hs] at h
            obtain ⟨pre, suf, h1, h2, h3, h4⟩ := ih.1 h
            exact ⟨pre, suf ++ [RegistryOp.add x], by simp [h1], h2, h3, by simp [h4]⟩
          · rw [if_neg hs] at h
            refine ⟨ops, [], rfl, by simpa using h, ?_, by simp⟩
            exact fun hm => hs ((mem_referenceList_iff_insertedAt ops x).1 hm)
        · rw [if_neg hx] at h
          obtain ⟨pre, suf, h1, h2, h3, h4⟩ := ih.1 h
          exact ⟨pre, suf ++ [RegistryOp.add x], by simp [h1], h2, h3, by simp [h4]⟩
      · rintro ⟨pre, suf, heq, hlen, habs, hsuf⟩
        rcases (concat_eq_append_cons _ _ _ _ _).1 heq with ⟨-, h2, h3⟩ | ⟨suf1, h1, h2⟩
        · cases h3
          subst h2
          have hs : ¬ (insertedAt ops handle).isSome = true := fun hs =>
            habs ((mem_referenceList_iff_insertedAt ops handle).2 hs)
          rw [if_pos rfl, if_neg hs, hlen]
        · subst h1
          have hk : insertedAt ops handle = some k :=
            ih.2 ⟨pre, suf1, h2, hlen, habs, fun hm => hsuf (List.mem_append_left _ hm)⟩
          split
          · simp [hk]
          · exact hk
    | rem x =>
      rw [insertedAt_concat_rem]
      constructor
      · intro h
        by_cases hx : x = handle
        · rw [if_pos hx] at h
          cases h
        · rw [if_neg hx] at h
          obtain ⟨pre, suf, h1, h2, h3, h4⟩ := ih.1 h
          have hx2 : ¬ handle = x := fun e => hx e.symm
          exact ⟨pre, suf ++ [RegistryOp.rem x], by simp [h1], h2, h3, by simp [h4, hx2]⟩
      · rintro ⟨pre, suf, heq, hlen, habs, hsuf⟩
        rcases (concat_eq_append_cons _ _ _ _ _).1 heq with ⟨-, -, h3⟩ | ⟨suf1, h1, h2⟩
        · cases h3
        · subst h1
          have hx : ¬ x = handle := by
            rintro rfl
            exact hsuf (by simp)
          rw [if_neg hx]
          exact ih.2 ⟨pre, suf1, h2, hlen, habs, fun hm => hsuf (List.mem_append_left _ hm)⟩

/-! ## Frame lemmas for the operations -/

theorem setState_lists (system : BRCryptoSystem) (state : BRCryptoSystemState) :
    (cryptoSystemSetState system state).1.networks = system.networks ∧
      (cryptoSystemSetState system state).1.managers = system.managers := by
  simp only [cryptoSystemSetState]
  split <;> exact ⟨rfl, rfl⟩

theorem addNetwork_managers (system : BRCryptoSystem) (network : BRCryptoNetwork) :
    (cryptoSystemAddNetwork system network).1.managers = system.managers := by
  unfold cryptoSystemAddNetwork
  split <;> rfl

theorem remNetwork_managers (system : BRCryptoSystem) (network : BRCryptoNetwork) :
    (cryptoSystemRemNetwork system network).1.managers = system.managers := by
  unfold cryptoSystemRemNetwork
  split <;> rfl

theorem addWalletManager_networks (system : BRCryptoSystem)
    (manager : BRCryptoWalletManager) :
    (cryptoSystemAddWalletManager system manager).1.networks = system.networks := by
  unfold cryptoSystemAddWalletManager
  split <;> rfl

theorem remWalletManager_networks (system : BRCryptoSystem)
    (manager : BRCryptoWalletManager) :
    (cryptoSystemRemWalletManager system manager).1.networks = system.networks := by
  unfold cryptoSystemRemWalletManager
  split <;> rfl

theorem createWalletManager_lists (env : Collaborators) (system : BRCryptoSystem)
    (network : BRCryptoNetwork) (mode : BRCryptoSyncMode) (scheme : BRCryptoAddressScheme)
    (currencies : List BRCryptoCurrency) :
    (cryptoSystemCreateWalletManager env system network mode scheme currencies).2.1.networks =
        system.networks ∧
      ((cryptoSystemCreateWalletManager env system network mode scheme
            currencies).2.1.managers = system.managers ∨
        ∃ manager,
          (cryptoSystemCreateWalletManager env system network mode scheme
            currencies).2.1.managers =
            referenceApply system.managers (RegistryOp.add manager)) := by
  unfold cryptoSystemCreateWalletManager
  split
  · exact ⟨rfl, Or.inl rfl⟩
  · exact ⟨addWalletManager_networks _ _, Or.inr ⟨_, addWalletManager_managers _ _⟩⟩

theorem run_nodup (env : Collaborators) (system : BRCryptoSystem) (op : SystemOp)
    (hn : system.networks.Nodup) (hm : system.managers.Nodup) :
    (op.run env system).1.networks.Nodup ∧ (op.run env system).1.managers.Nodup := by
  cases op with
  | setState state =>
    show (cryptoSystemSetState system state).1.networks.Nodup ∧
      (cryptoSystemSetState system state).1.managers.Nodup
    rw [(setState_lists system state).1, (setState_lists system state).2]
    exact ⟨hn, hm⟩
  | setReachable isReachable => exact ⟨hn, hm⟩
  | addNetwork network =>
    show (cryptoSystemAddNetwork system network).1.networks.Nodup ∧
      (cryptoSystemAddNetwork system network).1.managers.Nodup
    rw [addNetwork_networks, addNetwork_managers]
    exact ⟨referenceApply_nodup hn _, hm⟩
  | remNetwork network =>
    show (cryptoSystemRemNetwork system network).1.networks.Nodup ∧
      (cryptoSystemRemNetwork system network).1.managers.Nodup
    rw [remNetwork_networks, remNetwork_managers]
    exact ⟨referenceApply_nodup hn _, hm⟩
  | addWalletManager manager =>
    show (cryptoSystemAddWalletManager system manager).1.networks.Nodup ∧
      (cryptoSystemAddWalletManager system manager).1.managers.Nodup
    rw [addWalletManager_networks, addWalletManager_managers]
    exact ⟨hn, referenceApply_nodup hm _⟩
  | remWalletManager manager =>
    show (cryptoSystemRemWalletManager system manager).1.networks.Nodup ∧
      (cryptoSystemRemWalletManager system manager).1.managers.Nodup
    rw [remWalletManager_networks, remWalletManager_managers]
    exact ⟨hn, referenceApply_nodup hm _⟩
  | createWalletManager network mode scheme currencies =>
    show (cryptoSystemCreateWalletManager env system network mode scheme
        currencies).2.1.networks.Nodup ∧
      (cryptoSystemCreateWalletManager env system network mode scheme
        currencies).2.1.managers.Nodup
    obtain ⟨h1, h2⟩ := createWalletManager_lists env system network mode scheme currencies
    rw [h1]
    refine ⟨hn, ?_⟩
    rcases h2 with h2 | ⟨manager, h2⟩
    · rw [h2]
      exact hm
    · rw [h2]
      exact referenceApply_nodup hm _
  | connect => exact ⟨hn, hm⟩
  | disconnect => exact ⟨hn, hm⟩

/-! ## The claims -/

/-- C1: starting from a freshly created System, after any finite sequence of
`cryptoSystemAddNetwork` / `cryptoSystemRemNetwork` calls the networks list equals the
reference list (an add appends the handle if absent, a remove erases it); it has no
duplicate, holds exactly the handles that were added and not removed after that add, and
lists them in the order of the adds that inserted them. The same holds for the managers
list under `cryptoSystemAddWalletManager` / `cryptoSystemRemWalletManager`. The add that
inserted a handle is the one at position `insertedAt ops handle`: an add of the handle
that found it absent and is followed by no remove of it (last conjunct). -/
theorem C1_registry_equals_reference_list (env : Collaborators) (client : BRCryptoClient)
    (listener : BRCryptoListener) (account : BRCryptoAccount) (basePath : String)
    (onMainnet : Bool) (ops : List RegistryOp) :
    ((ops.foldl applyNetworkOp
          (cryptoSystemCreate env client listener account basePath onMainnet).1).networks =
        referenceList ops ∧
      (ops.foldl applyNetworkOp
          (cryptoSystemCreate env client listener account basePath onMainnet).1).networks.Nodup ∧
      (∀ handle,
        handle ∈ (ops.foldl applyNetworkOp
            (cryptoSystemCreate env client listener account basePath onMainnet).1).networks ↔
          ∃ pre suf, ops = pre ++ RegistryOp.add handle :: suf ∧
            RegistryOp.rem handle ∉ suf) ∧
      (ops.foldl applyNetworkOp
          (cryptoSystemCreate env client listener account basePath
            onMainnet).1).networks.Pairwise (insertedBefore ops)) ∧
    ((ops.foldl applyManagerOp
          (cryptoSystemCreate env client listener account basePath onMainnet).1).managers =
        referenceList ops ∧
      (ops.foldl applyManagerOp
          (cryptoSystemCreate env client listener account basePath onMainnet).1).managers.Nodup ∧
      (∀ handle,
        handle ∈ (ops.foldl applyManagerOp
            (cryptoSystemCreate env client listener account basePath onMainnet).1).managers ↔
          ∃ pre suf, ops = pre ++ RegistryOp.add handle :: suf ∧
            RegistryOp.rem handle ∉ suf) ∧
      (ops.foldl applyManagerOp
          (cryptoSystemCreate env client listener account basePath
            onMainnet).1).managers.Pairwise (insertedBefore ops)) ∧
    (∀ handle k, insertedAt ops handle = some k ↔
      ∃ pre suf, ops = pre ++ RegistryOp.add handle :: suf ∧ pre.length = k ∧
        handle ∉ referenceList pre ∧ RegistryOp.rem handle ∉ suf) := by
  have hn : (ops.foldl applyNetworkOp
      (cryptoSystemCreate env client listener account basePath onMainnet).1).networks =
      referenceList ops := by
    rw [foldl_applyNetworkOp_networks]
    rfl
  have hm : (ops.foldl applyManagerOp
      (cryptoSystemCreate env client listener account basePath onMainnet).1).managers =
      referenceList ops := by
    rw [foldl_applyManagerOp_managers]
    rfl
  rw [hn, hm]
  exact ⟨⟨rfl, referenceList_nodup ops, mem_referenceList_iff ops, referenceList_pairwise ops⟩,
    ⟨rfl, referenceList_nodup ops, mem_referenceList_iff ops, referenceList_pairwise ops⟩,
    insertedAt_eq_some_iff ops⟩

/-- C2: no-duplicates is an invariant of every System operation. Right after
`cryptoSystemCreate` both lists are empty, hence duplicate-free; and if the networks list
and the managers list hold no handle twice before a call of setState, setReachable,
addNetwork, remNetwork, addWalletManager, remWalletManager, createWalletManager, connect or
disconnect, they hold no handle twice after it. -/
theorem C2_no_duplicates_invariant (env : Collaborators) (client : BRCryptoClient)
    (listener : BRCryptoListener) (account : BRCryptoAccount) (basePath : String)
    (onMainnet : Bool) (system : BRCryptoSystem) (op : SystemOp)
    (hn : system.networks.Nodup) (hm : system.managers.Nodup) :
    ((cryptoSystemCreate env client listener account basePath onMainnet).1.networks = [] ∧
      (cryptoSystemCreate env client listener account basePath onMainnet).1.managers = [] ∧
      (cryptoSystemCreate env client listener account basePath onMainnet).1.networks.Nodup ∧
      (cryptoSystemCreate env client listener account basePath onMainnet).1.managers.Nodup) ∧
    ((op.run env system).1.networks.Nodup ∧ (op.run env system).1.managers.Nodup) :=
  ⟨⟨rfl, rfl, List.nodup_nil, List.nodup_nil⟩, run_nodup env system op hn hm⟩

/-- Instance of C2: creating a manager for network 8 on the sample System. -/
theorem C2_no_duplicates_invariant_witness :
    sampleSystem.networks.Nodup ∧ sampleSystem.managers.Nodup ∧
    (((SystemOp.createWalletManager 8 0 0 [1, 9]).run sampleEnv sampleSystem).1.networks.Nodup ∧
      ((SystemOp.createWalletManager 8 0 0 [1, 9]).run sampleEnv
        sampleSystem).1.managers.Nodup) :=
  ⟨by decide, by decide,
    (C2_no_duplicates_invariant sampleEnv 1 2 3 "base" true sampleSystem
      (SystemOp.createWalletManager 8 0 0 [1, 9]) (by decide) (by decide)).2⟩

/-- C3: for every System whose networks list holds no handle twice (the data-model
invariant, which `cryptoSystemCreate` establishes and every operation keeps) and every
network `n`: `cryptoSystemHasNetwork n` is true right after `cryptoSystemAddNetwork n`, and
false right after `cryptoSystemRemNetwork n`. The first half needs no invariant. -/
theorem C3_hasNetwork_after_add_and_rem (system : BRCryptoSystem)
    (network : BRCryptoNetwork) :
    cryptoSystemHasNetwork (cryptoSystemAddNetwork system network).1 network = true ∧
    (system.networks.Nodup →
      cryptoSystemHasNetwork (cryptoSystemRemNetwork system network).1 network = false) := by
  constructor
  · rw [hasNetwork_iff, addNetwork_networks, mem_referenceApply_add]
    exact Or.inr rfl
  · intro hnd
    cases hb : cryptoSystemHasNetwork (cryptoSystemRemNetwork system network).1 network
    · rfl
    · rw [hasNetwork_iff, remNetwork_networks, mem_referenceApply_rem hnd] at hb
      exact absurd rfl hb.1

/-- Instance of C3: network 5 on the sample System. -/
theorem C3_hasNetwork_after_add_and_rem_witness :
    sampleSystem.networks.Nodup ∧
    cryptoSystemHasNetwork (cryptoSystemAddNetwork sampleSystem 5).1 5 = true ∧
    cryptoSystemHasNetwork (cryptoSystemRemNetwork sampleSystem 5).1 5 = false :=
  ⟨by decide, (C3_hasNetwork_after_add_and_rem sampleSystem 5).1,
    (C3_hasNetwork_after_add_and_rem sampleSystem 5).2 (by decide)⟩

/-- C4: for every System and every network already present in its networks list,
`cryptoSystemAddNetwork` is a no-op: the record (hence the networks list, its contents,
order and size) is unchanged and no call is made, in particular no event is delivered to
the listener. The same holds for `cryptoSystemAddWalletManager` with a manager already
present. -/
theorem C4_add_present_is_noop (system : BRCryptoSystem) (network : BRCryptoNetwork)
    (manager : BRCryptoWalletManager) :
    (network ∈ system.networks →
      cryptoSystemAddNetwork system network = (system, []) ∧
      (cryptoSystemAddNetwork system network).1.networks = system.networks ∧
      systemEvents (cryptoSystemAddNetwork system network).2 = []) ∧
    (manager ∈ system.managers →
      cryptoSystemAddWalletManager system manager = (system, []) ∧
      (cryptoSystemAddWalletManager system manager).1.managers = system.managers ∧
      systemEvents (cryptoSystemAddWalletManager system manager).2 = []) := by
  constructor
  · intro h
    have h2 : cryptoSystemHasNetwork system network = true := (hasNetwork_iff _ _).2 h
    have h3 : cryptoSystemAddNetwork system network = (system, []) := by
      simp [cryptoSystemAddNetwork, h2]
    rw [h3]
    exact ⟨rfl, rfl, rfl⟩
  · intro h
    have h2 : cryptoSystemHasWalletManager system manager = true :=
      (hasWalletManager_iff _ _).2 h
    have h3 : cryptoSystemAddWalletManager system manager = (system, []) := by
      simp [cryptoSystemAddWalletManager, h2]
    rw [h3]
    exact ⟨rfl, rfl, rfl⟩

/-- Instance of C4: network 6 and manager 104 are present in the sample System. -/
theorem C4_add_present_is_noop_witness :
    (6 ∈ sampleSystem.networks ∧ 104 ∈ sampleSystem.managers) ∧
    cryptoSystemAddNetwork sampleSystem 6 = (sampleSystem, []) ∧
    cryptoSystemAddWalletManager sampleSystem 104 = (sampleSystem, []) :=
  ⟨⟨by decide, by decide⟩,
    ((C4_add_present_is_noop sampleSystem 6 104).1 (by decide)).1,
    ((C4_add_present_is_noop sampleSystem 6 104).2 (by decide)).1⟩

/-- C5: for every System and network `n`: if `n` is absent, `cryptoSystemRemNetwork n`
leaves the whole System unchanged and makes no call (no event); if `n` is present, the
record afterwards is the previous one with the entry for `n` erased from the networks list
(one entry fewer, the remaining entries in their previous relative order, every other
handle kept) and the only call made is the delivery of one `NETWORK_DELETED` event
carrying `n`. -/
theorem C5_remNetwork_behaviour (system : BRCryptoSystem) (network : BRCryptoNetwork) :
    (network ∉ system.networks → cryptoSystemRemNetwork system network = (system, [])) ∧
    (network ∈ system.networks →
      (cryptoSystemRemNetwork system network).1 =
        { system with networks := system.networks.erase network } ∧
      (cryptoSystemRemNetwork system network).1.networks.length + 1 =
        system.networks.length ∧
      (cryptoSystemRemNetwork system network).1.networks.Sublist system.networks ∧
      (∀ other, other ≠ network →
        (other ∈ (cryptoSystemRemNetwork system network).1.networks ↔
          other ∈ system.networks)) ∧
      (cryptoSystemRemNetwork system network).2 =
        [Effect.cryptoListenerGenerateSystemEvent system.listener
          (BRCryptoSystemEvent.CRYPTO_SYSTEM_EVENT_NETWORK_DELETED network)] ∧
      systemEvents (cryptoSystemRemNetwork system network).2 =
        [BRCryptoSystemEvent.CRYPTO_SYSTEM_EVENT_NETWORK_DELETED network]) := by
  constructor
  · intro h
    have hscan : cryptoSystemHasNetworkFor system network = none :=
      (arrayScanFrom_none _ _ _).2 h
    simp [cryptoSystemRemNetwork, hscan]
  · intro h
    cases hscan : cryptoSystemHasNetworkFor system network with
    | none => exact absurd h ((arrayScanFrom_none _ _ _).1 hscan)
    | some index =>
      have hrm := (array_rm_of_scan hscan).2
      have h1 : cryptoSystemRemNetwork system network =
          ({ system with networks := system.networks.erase network },
            [Effect.cryptoListenerGenerateSystemEvent system.listener
              (BRCryptoSystemEvent.CRYPTO_SYSTEM_EVENT_NETWORK_DELETED network)]) := by
        simp [cryptoSystemRemNetwork, hscan, hrm]
      rw [h1]
      refine ⟨rfl, ?_, List.erase_sublist _ _, ?_, rfl, rfl⟩
      · show (system.networks.erase network).length + 1 = system.networks.length
        rw [List.length_erase_of_mem h]
        have : 0 < system.networks.length := List.length_pos_of_mem h
        omega
      · intro other hne
        exact List.mem_erase_of_ne hne

/-- Instance of C5: network 7 is absent from the sample System and network 5 is present. -/
theorem C5_remNetwork_behaviour_witness :
    (7 ∉ sampleSystem.networks ∧ 5 ∈ sampleSystem.networks) ∧
    cryptoSystemRemNetwork sampleSystem 7 = (sampleSystem, []) ∧
    (cryptoSystemRemNetwork sampleSystem 5).1 =
      { sampleSystem with networks := sampleSystem.networks.erase 5 } :=
  ⟨⟨by decide, by decide⟩,
    (C5_remNetwork_behaviour sampleSystem 7).1 (by decide),
    ((C5_remNetwork_behaviour sampleSystem 5).2 (by decide)).1⟩

/-- C6: for every System with current state `old` and every state `new`: after
`cryptoSystemSetState new`, `cryptoSystemGetState` returns `new`; if `old` differs from
`new` the only call made is the delivery of one `CHANGED` event with payload
`(old, new)`; if `old` equals `new` no call is made and the System is unchanged. -/
theorem C6_setState_behaviour (system : BRCryptoSystem) (state : BRCryptoSystemState) :
    cryptoSystemGetState (cryptoSystemSetState system state).1 = state ∧
    (system.state ≠ state →
      (cryptoSystemSetState system state).2 =
        [Effect.cryptoListenerGenerateSystemEvent system.listener
          (BRCryptoSystemEvent.CRYPTO_SYSTEM_EVENT_CHANGED system.state state)] ∧
      systemEvents (cryptoSystemSetState system state).2 =
        [BRCryptoSystemEvent.CRYPTO_SYSTEM_EVENT_CHANGED system.state state]) ∧
    (system.state = state → cryptoSystemSetState system state = (system, [])) := by
  refine ⟨?_, ?_, ?_⟩
  · simp only [cryptoSystemSetState, cryptoSystemGetState]
    split <;> rfl
  · intro h
    simp only [cryptoSystemSetState, if_pos h]
    exact ⟨rfl, rfl⟩
  · intro h
    subst h
    simp [cryptoSystemSetState]

/-- Instance of C6: the sample System is in state CREATED; setting DELETED changes the
state, setting CREATED does not. -/
theorem C6_setState_behaviour_witness :
    (sampleSystem.state ≠ BRCryptoSystemState.CRYPTO_SYSTEM_STATE_DELETED ∧
      sampleSystem.state = BRCryptoSystemState.CRYPTO_SYSTEM_STATE_CREATED) ∧
    systemEvents
        (cryptoSystemSetState sampleSystem
          BRCryptoSystemState.CRYPTO_SYSTEM_STATE_DELETED).2 =
      [BRCryptoSystemEvent.CRYPTO_SYSTEM_EVENT_CHANGED sampleSystem.state
        BRCryptoSystemState.CRYPTO_SYSTEM_STATE_DELETED] ∧
    cryptoSystemSetState sampleSystem BRCryptoSystemState.CRYPTO_SYSTEM_STATE_CREATED =
      (sampleSystem, []) :=
  ⟨⟨by decide, rfl⟩,
    ((C6_setState_behaviour sampleSystem
      BRCryptoSystemState.CRYPTO_SYSTEM_STATE_DELETED).2.1 (by decide)).2,
    (C6_setState_behaviour sampleSystem
      BRCryptoSystemState.CRYPTO_SYSTEM_STATE_CREATED).2.2 rfl⟩

/-- C7, as stated, fails: a freshly created System is in state CREATED, and calling
`cryptoSystemSetState CREATED` twice on it delivers no `CHANGED` event at all, not one. -/
theorem C7_counterexample_state_already_set :
    changedCount
        ((cryptoSystemSetState freshSystem
            BRCryptoSystemState.CRYPTO_SYSTEM_STATE_CREATED).2 ++
          (cryptoSystemSetState
            (cryptoSystemSetState freshSystem
              BRCryptoSystemState.CRYPTO_SYSTEM_STATE_CREATED).1
            BRCryptoSystemState.CRYPTO_SYSTEM_STATE_CREATED).2) = 0 ∧
    ¬ changedCount
        ((cryptoSystemSetState freshSystem
            BRCryptoSystemState.CRYPTO_SYSTEM_STATE_CREATED).2 ++
          (cryptoSystemSetState
            (cryptoSystemSetState freshSystem
              BRCryptoSystemState.CRYPTO_SYSTEM_STATE_CREATED).1
            BRCryptoSystemState.CRYPTO_SYSTEM_STATE_CREATED).2) = 1 := by
  constructor <;> decide

/-- C7, amended: for every System and every state `s`, calling `cryptoSystemSetState s`
twice in a row delivers exactly one `CHANGED` event in total when the state before the
first call differs from `s` (the event carrying the previous state and `s`) and none when
it already equals `s`; in both cases the second call makes no call at all, and
`cryptoSystemGetState` returns `s` after each of the two calls. -/
theorem C7_setState_twice (system : BRCryptoSystem) (state : BRCryptoSystemState) :
    (cryptoSystemSetState (cryptoSystemSetState system state).1 state).2 = [] ∧
    cryptoSystemGetState (cryptoSystemSetState system state).1 = state ∧
    cryptoSystemGetState
      (cryptoSystemSetState (cryptoSystemSetState system state).1 state).1 = state ∧
    systemEvents
        ((cryptoSystemSetState system state).2 ++
          (cryptoSystemSetState (cryptoSystemSetState system state).1 state).2) =
      (if system.state = state then []
        else [BRCryptoSystemEvent.CRYPTO_SYSTEM_EVENT_CHANGED system.state state]) ∧
    changedCount
        ((cryptoSystemSetState system state).2 ++
          (cryptoSystemSetState (cryptoSystemSetState system state).1 state).2) =
      (if system.state = state then 0 else 1) := by
  have hstate : (cryptoSystemSetState system state).1.state = state := by
    simp only [cryptoSystemSetState]
    split <;> rfl
  have hsecond : (cryptoSystemSetState (cryptoSystemSetState system state).1 state).2 = [] := by
    generalize cryptoSystemSetState system state = first at hstate
    simp [cryptoSystemSetState, hstate]
  have hsecondState :
      (cryptoSystemSetState (cryptoSystemSetState system state).1 state).1.state = state := by
    generalize (cryptoSystemSetState system state).1 = mid
    simp only [cryptoSystemSetState]
    split <;> rfl
  refine ⟨hsecond, hstate, hsecondState, ?_, ?_⟩
  · rw [hsecond, List.append_nil]
    by_cases h : system.state = state
    · simp [cryptoSystemSetState, h, systemEvents]
    · simp [cryptoSystemSetState, h, systemEvents, cryptoSystemGenerateEvent,
        Effect.asSystemEvent]
  · rw [hsecond, List.append_nil]
    by_cases h : system.state = state
    · simp [cryptoSystemSetState, h, systemEvents, changedCount]
    · simp [cryptoSystemSetState, h, systemEvents, changedCount, cryptoSystemGenerateEvent,
        Effect.asSystemEvent, BRCryptoSystemEvent.isChanged]

/-- C8: whenever the System's account is not initialized for the given network,
`cryptoSystemCreateWalletManager` returns the null handle and is atomic: the record
(managers list, networks list, state, reachability flag and every other field) is
unchanged and no call is made, so no event is emitted, no manager is constructed and no
manager operation is invoked. -/
theorem C8_createWalletManager_not_initialized (env : Collaborators)
    (system : BRCryptoSystem) (network : BRCryptoNetwork) (mode : BRCryptoSyncMode)
    (scheme : BRCryptoAddressScheme) (currencies : List BRCryptoCurrency)
    (h : env.cryptoNetworkIsAccountInitialized network system.account = false) :
    cryptoSystemCreateWalletManager env system network mode scheme currencies =
      (NULL, system, []) ∧
    (cryptoSystemCreateWalletManager env system network mode scheme currencies).1 = NULL ∧
    (cryptoSystemCreateWalletManager env system network mode scheme currencies).2.1.managers =
      system.managers ∧
    (cryptoSystemCreateWalletManager env system network mode scheme currencies).2.1.networks =
      system.networks ∧
    (cryptoSystemCreateWalletManager env system network mode scheme currencies).2.1.state =
      system.state ∧
    (cryptoSystemCreateWalletManager env system network mode scheme
      currencies).2.1.isReachable = system.isReachable ∧
    systemEvents
      (cryptoSystemCreateWalletManager env system network mode scheme currencies).2.2 = [] ∧
    (cryptoSystemCreateWalletManager env system network mode scheme
      currencies).2.2.filter Effect.isManagerCall = [] := by
  have h1 : cryptoSystemCreateWalletManager env system network mode scheme currencies =
      (NULL, system, []) := by
    simp [cryptoSystemCreateWalletManager, h]
  rw [h1]
  exact ⟨rfl, rfl, rfl, rfl, rfl, rfl, rfl, rfl⟩

/-- Instance of C8: the sample account is not initialized for network 7. -/
theorem C8_createWalletManager_not_initialized_witness :
    sampleEnv.cryptoNetworkIsAccountInitialized 7 sampleSystem.account = false ∧
    cryptoSystemCreateWalletManager sampleEnv sampleSystem 7 0 0 [1, 9] =
      (NULL, sampleSystem, []) :=
  ⟨by decide,
    (C8_createWalletManager_not_initialized sampleEnv sampleSystem 7 0 0 [1, 9]
      (by decide)).1⟩

theorem systemEvents_createWalletsLoop (env : Collaborators) (network : BRCryptoNetwork)
    (manager : BRCryptoWalletManager) (currencies : List BRCryptoCurrency) :
    systemEvents (createWalletsLoop env network manager currencies) = [] := by
  induction currencies with
  | nil => rfl
  | cons currency rest ih =>
    simp only [createWalletsLoop]
    split
    · simpa [systemEvents, Effect.asSystemEvent] using ih
    · exact ih

theorem reachableCalls_createWalletsLoop (env : Collaborators) (network : BRCryptoNetwork)
    (manager : BRCryptoWalletManager) (currencies : List BRCryptoCurrency) :
    reachableCalls (createWalletsLoop env network manager currencies) = [] := by
  induction currencies with
  | nil => rfl
  | cons currency rest ih =>
    simp only [createWalletsLoop]
    split
    · simpa [reachableCalls] using ih
    · exact ih

/-- C9: when the System's account is initialized for the given network,
`cryptoSystemCreateWalletManager` returns the manager the factory builds from the System's
client, account, the network, the sync mode, the address scheme and the System's path (the
factory being called with exactly these arguments); after the call that manager is a
member of the managers list, appended last with exactly one System event, `MANAGER_ADDED`
carrying it, when it was not registered before (and with the list unchanged and no System
event when it was); and the manager has received exactly one set-network-reachable call,
carrying the System's current `isReachable` value. -/
theorem C9_createWalletManager_initialized (env : Collaborators) (system : BRCryptoSystem)
    (network : BRCryptoNetwork) (mode : BRCryptoSyncMode) (scheme : BRCryptoAddressScheme)
    (currencies : List BRCryptoCurrency)
    (h : env.cryptoNetworkIsAccountInitialized network system.account = true) :
    (cryptoSystemCreateWalletManager env system network mode scheme currencies).1 =
      factoryManager env system network mode scheme ∧
    Effect.cryptoWalletManagerCreate
        (env.cryptoListenerCreateWalletManagerListener system.listener system)
        system.client system.account network mode scheme system.path ∈
      (cryptoSystemCreateWalletManager env system network mode scheme currencies).2.2 ∧
    factoryManager env system network mode scheme ∈
      (cryptoSystemCreateWalletManager env system network mode scheme
        currencies).2.1.managers ∧
    (factoryManager env system network mode scheme ∉ system.managers →
      (cryptoSystemCreateWalletManager env system network mode scheme
          currencies).2.1.managers =
        system.managers ++ [factoryManager env system network mode scheme] ∧
      systemEvents
          (cryptoSystemCreateWalletManager env system network mode scheme currencies).2.2 =
        [BRCryptoSystemEvent.CRYPTO_SYSTEM_EVENT_MANAGER_ADDED
          (factoryManager env system network mode scheme)]) ∧
    (factoryManager env system network mode scheme ∈ system.managers →
      (cryptoSystemCreateWalletManager env system network mode scheme
          currencies).2.1.managers = system.managers ∧
      systemEvents
          (cryptoSystemCreateWalletManager env system network mode scheme currencies).2.2 =
        []) ∧
    reachableCalls
        (cryptoSystemCreateWalletManager env system network mode scheme currencies).2.2 =
      [(factoryManager env system network mode scheme, system.isReachable)] ∧
    (cryptoSystemCreateWalletManager env system network mode scheme
      currencies).2.1.isReachable = system.isReachable := by
  have hloopE := systemEvents_createWalletsLoop env network
    (factoryManager env system network mode scheme) currencies
  have hloopR := reachableCalls_createWalletsLoop env network
    (factoryManager env system network mode scheme) currencies
  by_cases hmem : factoryManager env system network mode scheme ∈ system.managers
  · have hhas : cryptoSystemHasWalletManager system
        (factoryManager env system network mode scheme) = true :=
      (hasWalletManager_iff _ _).2 hmem
    have hadd : cryptoSystemAddWalletManager system
        (factoryManager env system network mode scheme) = (system, []) := by
      simp [cryptoSystemAddWalletManager, hhas]
    have hrun : cryptoSystemCreateWalletManager env system network mode scheme currencies =
        (factoryManager env system network mode scheme, system,
          [Effect.cryptoListenerCreateWalletManagerListener system.listener,
            Effect.cryptoWalletManagerCreate
              (env.cryptoListenerCreateWalletManagerListener system.listener system)
              system.client system.account network mode scheme system.path] ++ [] ++
            [Effect.cryptoWalletManagerSetNetworkReachable
              (factoryManager env system network mode scheme) system.isReachable] ++
            createWalletsLoop env network (factoryManager env system network mode scheme)
              currencies) := by
      simp only [cryptoSystemCreateWalletManager, h, Bool.true_eq_false, if_false]
      rw [show env.cryptoWalletManagerCreate
          (env.cryptoListenerCreateWalletManagerListener system.listener system)
          system.client system.account network mode scheme system.path =
          factoryManager env system network mode scheme from rfl, hadd]
    rw [hrun]
    refine ⟨rfl, by simp, hmem, fun hn => absurd hmem hn, fun _ => ⟨rfl, ?_⟩, ?_, rfl⟩
    · simpa [systemEvents, Effect.asSystemEvent] using hloopE
    · simpa [reachableCalls] using hloopR
  · have hhas : cryptoSystemHasWalletManager system
        (factoryManager env system network mode scheme) = false := by
      cases hb : cryptoSystemHasWalletManager system
        (factoryManager env system network mode scheme)
      · rfl
      · exact absurd ((hasWalletManager_iff _ _).1 hb) hmem
    have hadd : cryptoSystemAddWalletManager system
        (factoryManager env system network mode scheme) =
        ({ system with
            managers := system.managers ++ [factoryManager env system network mode scheme] },
          [Effect.cryptoWalletManagerTake (factoryManager env system network mode scheme),
            Effect.cryptoWalletManagerTake (factoryManager env system network mode scheme),
            Effect.cryptoListenerGenerateSystemEvent system.listener
              (BRCryptoSystemEvent.CRYPTO_SYSTEM_EVENT_MANAGER_ADDED
                (factoryManager env system network mode scheme))]) := by
      simp [cryptoSystemAddWalletManager, hhas, array_add]
    have hrun : cryptoSystemCreateWalletManager env system network mode scheme currencies =
        (factoryManager env system network mode scheme,
          { system with
            managers := system.managers ++ [factoryManager env system network mode scheme] },
          [Effect.cryptoListenerCreateWalletManagerListener system.listener,
            Effect.cryptoWalletManagerCreate
              (env.cryptoListenerCreateWalletManagerListener system.listener system)
              system.client system.account network mode scheme system.path] ++
            [Effect.cryptoWalletManagerTake (factoryManager env system network mode scheme),
              Effect.cryptoWalletManagerTake (factoryManager env system network mode scheme),
              Effect.cryptoListenerGenerateSystemEvent system.listener
                (BRCryptoSystemEvent.CRYPTO_SYSTEM_EVENT_MANAGER_ADDED
                  (factoryManager env system network mode scheme))] ++
            [Effect.cryptoWalletManagerSetNetworkReachable
              (factoryManager env system network mode scheme) system.isReachable] ++
            createWalletsLoop env network (factoryManager env system network mode scheme)
              currencies) := by
      simp only [cryptoSystemCreateWalletManager, h, Bool.true_eq_false, if_false]
      rw [show env.cryptoWalletManagerCreate
          (env.cryptoListenerCreateWalletManagerListener system.listener system)
          system.client system.account network mode scheme system.path =
          factoryManager env system network mode scheme from rfl, hadd]
    rw [hrun]
    refine ⟨rfl, by simp, by simp, fun _ => ⟨rfl, ?_⟩, fun hm => absurd hm hmem, ?_, rfl⟩
    · simpa [systemEvents, Effect.asSystemEvent] using hloopE
    · simpa [reachableCalls] using hloopR

/-- Instance of C9: the sample account is initialized for network 8, and the factory
returns manager 108, which the sample System does not hold yet. -/
theorem C9_createWalletManager_initialized_witness :
    sampleEnv.cryptoNetworkIsAccountInitialized 8 sampleSystem.account = true ∧
    (cryptoSystemCreateWalletManager sampleEnv sampleSystem 8 0 0 [1, 9]).1 =
      factoryManager sampleEnv sampleSystem 8 0 0 ∧
    factoryManager sampleEnv sampleSystem 8 0 0 ∈
      (cryptoSystemCreateWalletManager sampleEnv sampleSystem 8 0 0 [1, 9]).2.1.managers :=
  ⟨by decide,
    (C9_createWalletManager_initialized sampleEnv sampleSystem 8 0 0 [1, 9] (by decide)).1,
    (C9_createWalletManager_initialized sampleEnv sampleSystem 8 0 0 [1, 9]
      (by decide)).2.2.1⟩

/-- C10: for every System and every index `i`, `cryptoSystemGetNetworkAt i` returns the
`i`-th entry of the networks list when `i` is less than the list's length and the null
handle otherwise; it never reads outside the list, leaves the System as it was and makes
no call (so no reference count changes). The same holds for
`cryptoSystemGetWalletManagerAt` on the managers list. -/
theorem C10_getAt_bounds_checked (system : BRCryptoSystem) (index : Nat) :
    ((∀ h : index < system.networks.length,
        (cryptoSystemGetNetworkAt system index).1 = some system.networks[index]) ∧
      (¬ index < system.networks.length →
        (cryptoSystemGetNetworkAt system index).1 = some NULL) ∧
      (cryptoSystemGetNetworkAt system index).1 ≠ none ∧
      (cryptoSystemGetNetworkAt system index).2 = (system, [])) ∧
    ((∀ h : index < system.managers.length,
        (cryptoSystemGetWalletManagerAt system index).1 = some system.managers[index]) ∧
      (¬ index < system.managers.length →
        (cryptoSystemGetWalletManagerAt system index).1 = some NULL) ∧
      (cryptoSystemGetWalletManagerAt system index).1 ≠ none ∧
      (cryptoSystemGetWalletManagerAt system index).2 = (system, [])) := by
  refine ⟨⟨?_, ?_, ?_, rfl⟩, ⟨?_, ?_, ?_, rfl⟩⟩
  · intro h
    simp [cryptoSystemGetNetworkAt, array_count, array_read, h]
  · intro h
    simp [cryptoSystemGetNetworkAt, array_count, h]
  · by_cases h : index < system.networks.length <;>
      simp [cryptoSystemGetNetworkAt, array_count, array_read, h]
  · intro h
    simp [cryptoSystemGetWalletManagerAt, array_count, array_read, h]
  · intro h
    simp [cryptoSystemGetWalletManagerAt, array_count, h]
  · by_cases h : index < system.managers.length <;>
      simp [cryptoSystemGetWalletManagerAt, array_count, array_read, h]

/-- Instance of C10: index 1 is inside both lists of the sample System, index 3 is
outside both. -/
theorem C10_getAt_bounds_checked_witness :
    (1 < sampleSystem.networks.length ∧ ¬ 3 < sampleSystem.networks.length ∧
      1 < sampleSystem.managers.length ∧ ¬ 3 < sampleSystem.managers.length) ∧
    (cryptoSystemGetNetworkAt sampleSystem 1).1 = some 5 ∧
    (cryptoSystemGetNetworkAt sampleSystem 3).1 = some NULL ∧
    (cryptoSystemGetWalletManagerAt sampleSystem 1).1 = some 106 ∧
    (cryptoSystemGetWalletManagerAt sampleSystem 3).1 = some NULL :=
  ⟨⟨by decide, by decide, by decide, by decide⟩,
    (C10_getAt_bounds_checked sampleSystem 1).1.1 (by decide),
    (C10_getAt_bounds_checked sampleSystem 3).1.2.1 (by decide),
    (C10_getAt_bounds_checked sampleSystem 1).2.1 (by decide),
    (C10_getAt_bounds_checked sampleSystem 3).2.2.1 (by decide)⟩

/-! ## Snapshots, construction and destruction -/

theorem snapshotLoop_eq (take : Nat → Effect) (array : List Nat) :
    snapshotLoop take array = (array, array.map take) := by
  induction array with
  | nil => rfl
  | cons entry rest ih => simp [snapshotLoop, ih]

theorem getNetworks_eq (system : BRCryptoSystem) :
    cryptoSystemGetNetworks system =
      ((if system.networks = [] then none else some system.networks,
          system.networks.length),
        system, system.networks.map Effect.cryptoNetworkTake) := by
  unfold cryptoSystemGetNetworks array_count
  cases h : system.networks with
  | nil => simp
  | cons entry rest => simp [snapshotLoop_eq]

theorem getWalletManagers_eq (system : BRCryptoSystem) :
    cryptoSystemGetWalletManagers system =
      ((if system.managers = [] then none else some system.managers,
          system.managers.length),
        system, system.managers.map Effect.cryptoWalletManagerTake) := by
  unfold cryptoSystemGetWalletManagers array_count
  cases h : system.managers with
  | nil => simp
  | cons entry rest => simp [snapshotLoop_eq]

theorem count_map_of_nodup {α : Type} [DecidableEq α] (f : Nat → α)
    (hf : Function.Injective f) {list : List Nat} (hnd : list.Nodup) {x : Nat}
    (hx : x ∈ list) : (list.map f).count (f x) = 1 := by
  rw [List.count_map_of_injective list f hf]
  exact List.count_eq_one_of_mem hnd hx

theorem snapshot_read_stable (memory : Memory) (allocated : Nat) (entries : List Nat)
    (hfree : memory.read allocated = none) (after : Memory)
    (hblocks : after.blocks = (memory.store allocated entries).blocks)
    (hmanagers : after.managersAt = memory.managersAt)
    (hnetworks : after.networksAt ≠ allocated) :
    after.read allocated = some entries := by
  have hm : allocated ≠ memory.managersAt := by
    intro h
    unfold Memory.read at hfree
    by_cases hn : allocated = memory.networksAt
    · rw [if_pos hn] at hfree
      cases hfree
    · rw [if_neg hn, if_pos h] at hfree
      cases hfree
  unfold Memory.read
  rw [if_neg (fun h => hnetworks h.symm), hmanagers, if_neg hm, hblocks]
  simp [Memory.store]

/-- C11: `cryptoSystemGetNetworks` reports a count equal to the length of the networks
list and returns a sequence whose entries are the networks in order (the null sequence
exactly when the count is 0); it acquires one reference per listed entry, which is exactly
one on each listed network since the list holds no handle twice, releases nothing and
leaves the System unchanged. With the memory explicit: the pointer returned is the address
`calloc` gave, not the address of the System's own array; the array at that address holds
the networks as they were at the call, and a later `cryptoSystemAddNetwork` or
`cryptoSystemRemNetwork` changes neither its contents nor its length, while the System's
own array does change. The allocator is assumed to return an address that is not in
use. -/
theorem C11_getNetworks_snapshot (memory : Memory) (allocated relocated : Nat)
    (network : BRCryptoNetwork) :
    ((cryptoSystemGetNetworks memory.system).1.2 = memory.system.networks.length ∧
      ((cryptoSystemGetNetworks memory.system).1.1 = none ↔
        (cryptoSystemGetNetworks memory.system).1.2 = 0) ∧
      (∀ entries, (cryptoSystemGetNetworks memory.system).1.1 = some entries →
        entries = memory.system.networks ∧
        entries.length = (cryptoSystemGetNetworks memory.system).1.2 ∧
        (∀ i, i < (cryptoSystemGetNetworks memory.system).1.2 →
          entries[i]? = memory.system.networks[i]?)) ∧
      (memory.system.networks ≠ [] →
        (cryptoSystemGetNetworks memory.system).1.1 = some memory.system.networks) ∧
      (cryptoSystemGetNetworks memory.system).2.2 =
        memory.system.networks.map Effect.cryptoNetworkTake ∧
      (memory.system.networks.Nodup → ∀ listed, listed ∈ memory.system.networks →
        (cryptoSystemGetNetworks memory.system).2.2.count
          (Effect.cryptoNetworkTake listed) = 1) ∧
      (cryptoSystemGetNetworks memory.system).2.2.filter Effect.isGive = [] ∧
      (cryptoSystemGetNetworks memory.system).2.1 = memory.system) ∧
    ((cryptoSystemGetNetworksInMemory memory allocated).1 =
        (if memory.system.networks = [] then NULL else allocated,
          memory.system.networks.length) ∧
      (cryptoSystemGetNetworksInMemory memory allocated).2.2 =
        (cryptoSystemGetNetworks memory.system).2.2 ∧
      (cryptoSystemGetNetworksInMemory memory allocated).2.1.system = memory.system ∧
      (cryptoSystemGetNetworksInMemory memory allocated).2.1.networksAt =
        memory.networksAt ∧
      (allocated ≠ NULL →
        ((cryptoSystemGetNetworksInMemory memory allocated).1.1 = NULL ↔
          (cryptoSystemGetNetworksInMemory memory allocated).1.2 = 0))) ∧
    (memory.system.networks ≠ [] → memory.read allocated = none →
      (relocated = memory.networksAt ∨
        (cryptoSystemGetNetworksInMemory memory allocated).2.1.read relocated = none) →
      (cryptoSystemGetNetworksInMemory memory allocated).1.1 ≠ memory.networksAt ∧
      (cryptoSystemGetNetworksInMemory memory allocated).2.1.read
          (cryptoSystemGetNetworksInMemory memory allocated).1.1 =
        some memory.system.networks ∧
      (cryptoSystemAddNetworkInMemory (cryptoSystemGetNetworksInMemory memory allocated).2.1
            network relocated).1.read
          (cryptoSystemGetNetworksInMemory memory allocated).1.1 =
        some memory.system.networks ∧
      (cryptoSystemRemNetworkInMemory (cryptoSystemGetNetworksInMemory memory allocated).2.1
            network).1.read
          (cryptoSystemGetNetworksInMemory memory allocated).1.1 =
        some memory.system.networks ∧
      (network ∉ memory.system.networks →
        (cryptoSystemAddNetworkInMemory
              (cryptoSystemGetNetworksInMemory memory allocated).2.1 network relocated).1.read
            (cryptoSystemAddNetworkInMemory
              (cryptoSystemGetNetworksInMemory memory allocated).2.1 network
              relocated).1.networksAt =
          some (memory.system.networks ++ [network])) ∧
      (cryptoSystemRemNetworkInMemory
            (cryptoSystemGetNetworksInMemory memory allocated).2.1 network).1.read
          memory.networksAt =
        some (memory.system.networks.erase network)) := by
  refine ⟨?_, ?_, ?_⟩
  · rw [getNetworks_eq]
    refine ⟨rfl, ?_, ?_, ?_, rfl, ?_, ?_, rfl⟩
    · show ((if memory.system.networks = [] then none else some memory.system.networks) =
        none ↔ memory.system.networks.length = 0)
      by_cases h : memory.system.networks = [] <;> simp [h]
    · intro entries hsome
      have hent : entries = memory.system.networks := by
        change (if memory.system.networks = [] then none
          else some memory.system.networks) = some entries at hsome
        by_cases h : memory.system.networks = []
        · rw [if_pos h] at hsome
          cases hsome
        · rw [if_neg h] at hsome
          exact (Option.some.inj hsome).symm
      subst hent
      exact ⟨rfl, rfl, fun _ _ => rfl⟩
    · intro h
      show (if memory.system.networks = [] then none else some memory.system.networks) = _
      rw [if_neg h]
    · intro hnd listed hmem
      exact count_map_of_nodup Effect.cryptoNetworkTake
        (fun a b hab => by injection hab) hnd hmem
    · show (memory.system.networks.map Effect.cryptoNetworkTake).filter Effect.isGive = []
      rw [List.filter_eq_nil_iff]
      intro effect hmem
      obtain ⟨entry, -, rfl⟩ := List.mem_map.1 hmem
      simp [Effect.isGive]
  · rw [getNetworks_eq]
    unfold cryptoSystemGetNetworksInMemory array_count
    cases h : memory.system.networks with
    | nil => simp
    | cons entry rest => simp [snapshotLoop_eq, Memory.store]
  · intro hne hfree hreloc
    have hsnap : cryptoSystemGetNetworksInMemory memory allocated =
        ((allocated, memory.system.networks.length),
          memory.store allocated memory.system.networks,
          memory.system.networks.map Effect.cryptoNetworkTake) := by
      unfold cryptoSystemGetNetworksInMemory array_count
      have hlen : 0 ≠ memory.system.networks.length := by
        intro h0
        exact hne (List.length_eq_zero.1 h0.symm)
      simp only [hlen, ne_eq, not_false_eq_true, if_true, snapshotLoop_eq]
    rw [hsnap] at hreloc ⊢
    have hna : memory.networksAt ≠ allocated := by
      intro h
      unfold Memory.read at hfree
      rw [if_pos h.symm] at hfree
      cases hfree
    have hstored : (memory.store allocated memory.system.networks).read allocated =
        some memory.system.networks :=
      snapshot_read_stable memory allocated _ hfree _ rfl rfl hna
    have hra : relocated ≠ allocated := by
      rcases hreloc with h | h
      · rw [h]
        exact hna
      · intro heq
        rw [heq] at h
        change (memory.store allocated memory.system.networks).read allocated = none at h
        rw [hstored] at h
        cases h
    refine ⟨fun h => hna h.symm, hstored, ?_, ?_, ?_, ?_⟩
    · show (cryptoSystemAddNetworkInMemory (memory.store allocated memory.system.networks)
        network relocated).1.read allocated = _
      unfold cryptoSystemAddNetworkInMemory
      split
      · exact snapshot_read_stable memory allocated _ hfree _ rfl rfl hra
      · exact hstored
    · exact snapshot_read_stable memory allocated _ hfree _ rfl rfl hna
    · intro habs
      have hhas : cryptoSystemHasNetwork memory.system network = false := by
        cases hb : cryptoSystemHasNetwork memory.system network
        · rfl
        · exact absurd ((hasNetwork_iff _ _).1 hb) habs
      have hadd := addNetwork_networks memory.system network
      have href : referenceApply memory.system.networks (RegistryOp.add network) =
          memory.system.networks ++ [network] := by
        show (if network ∈ memory.system.networks then _ else _) = _
        rw [if_neg habs]
      rw [href] at hadd
      show (cryptoSystemAddNetworkInMemory (memory.store allocated memory.system.networks)
        network relocated).1.read _ = _
      simp only [cryptoSystemAddNetworkInMemory, Memory.store, hhas, if_true, Memory.read,
        hadd]
    · have hrem := remNetwork_networks memory.system network
      show (cryptoSystemRemNetworkInMemory (memory.store allocated memory.system.networks)
        network).1.read memory.networksAt = _
      simp only [cryptoSystemRemNetworkInMemory, Memory.store, Memory.read, if_true, hrem]
      rfl

/-- Instance of C11: the snapshot of the sample System is stored at the unused address
3000; network 7 is then added, the System's own array moving to the unused address 4000. -/
theorem C11_getNetworks_snapshot_witness :
    (sampleMemory.system.networks ≠ [] ∧ sampleMemory.read 3000 = none ∧
      (cryptoSystemGetNetworksInMemory sampleMemory 3000).2.1.read 4000 = none ∧
      sampleMemory.system.networks.Nodup ∧ 5 ∈ sampleMemory.system.networks ∧
      7 ∉ sampleMemory.system.networks) ∧
    ((cryptoSystemAddNetworkInMemory (cryptoSystemGetNetworksInMemory sampleMemory 3000).2.1
          7 4000).1.read (cryptoSystemGetNetworksInMemory sampleMemory 3000).1.1 =
        some sampleMemory.system.networks ∧
      (cryptoSystemAddNetworkInMemory (cryptoSystemGetNetworksInMemory sampleMemory 3000).2.1
            7 4000).1.read
          (cryptoSystemAddNetworkInMemory
            (cryptoSystemGetNetworksInMemory sampleMemory 3000).2.1 7 4000).1.networksAt =
        some (sampleMemory.system.networks ++ [7])) ∧
    (cryptoSystemGetNetworks sampleMemory.system).2.2.count (Effect.cryptoNetworkTake 5) = 1 ∧
    (3000 ≠ NULL ∧
      ((cryptoSystemGetNetworksInMemory sampleMemory 3000).1.1 = NULL ↔
        (cryptoSystemGetNetworksInMemory sampleMemory 3000).1.2 = 0)) :=
  ⟨⟨by decide, by decide, by decide, by decide, by decide, by decide⟩,
    ⟨((C11_getNetworks_snapshot sampleMemory 3000 4000 7).2.2 (by decide) (by decide)
        (Or.inr (by decide))).2.2.1,
      ((C11_getNetworks_snapshot sampleMemory 3000 4000 7).2.2 (by decide) (by decide)
        (Or.inr (by decide))).2.2.2.2.1 (by decide)⟩,
    (C11_getNetworks_snapshot sampleMemory 3000 4000 7).1.2.2.2.2.2.1 (by decide) 5
      (by decide),
    ⟨by decide,
      (C11_getNetworks_snapshot sampleMemory 3000 4000 7).2.1.2.2.2.2 (by decide)⟩⟩

/-- C12: for every client, listener, account, base path and mainnet flag,
`cryptoSystemCreate` returns a System whose state is CREATED, whose `onMainnet` is the
flag, whose `isReachable` is true, whose client and listener are the ones given, whose
networks and managers lists are empty, whose reference count is 1 and whose path is the
base path, the separator "/" and the account's filesystem identifier; it makes two calls:
one acquisition on the listener, then the delivery of one event, CREATED. -/
theorem C12_create_postconditions (env : Collaborators) (client : BRCryptoClient)
    (listener : BRCryptoListener) (account : BRCryptoAccount) (basePath : String)
    (onMainnet : Bool) :
    (cryptoSystemCreate env client listener account basePath onMainnet).1.state =
      BRCryptoSystemState.CRYPTO_SYSTEM_STATE_CREATED ∧
    cryptoSystemOnMainnet
      (cryptoSystemCreate env client listener account basePath onMainnet).1 = onMainnet ∧
    cryptoSystemIsReachable
      (cryptoSystemCreate env client listener account basePath onMainnet).1 = true ∧
    (cryptoSystemCreate env client listener account basePath onMainnet).1.client = client ∧
    (cryptoSystemCreate env client listener account basePath onMainnet).1.listener =
      listener ∧
    (cryptoSystemCreate env client listener account basePath onMainnet).1.networks = [] ∧
    (cryptoSystemCreate env client listener account basePath onMainnet).1.managers = [] ∧
    (cryptoSystemCreate env client listener account basePath onMainnet).1.ref = 1 ∧
    cryptoSystemGetResolvedPath
        (cryptoSystemCreate env client listener account basePath onMainnet).1 =
      basePath ++ "/" ++ env.cryptoAccountGetFileSystemIdentifier account ∧
    (cryptoSystemCreate env client listener account basePath onMainnet).2 =
      [Effect.cryptoListenerTake listener,
        Effect.cryptoListenerGenerateSystemEvent listener
          BRCryptoSystemEvent.CRYPTO_SYSTEM_EVENT_CREATED] ∧
    systemEvents (cryptoSystemCreate env client listener account basePath onMainnet).2 =
      [BRCryptoSystemEvent.CRYPTO_SYSTEM_EVENT_CREATED] ∧
    (cryptoSystemCreate env client listener account basePath onMainnet).2.filter
        Effect.isTake = [Effect.cryptoListenerTake listener] :=
  ⟨rfl, rfl, rfl, rfl, rfl, rfl, rfl, rfl, rfl, rfl, rfl, rfl⟩

/-- C13, what the code does: whatever account is passed, `cryptoSystemCreate` leaves the
`account` field at the null pointer and acquires no reference on any account; for the
sample call the account passed is 3 and the field is not 3. The field is then read by
`cryptoSystemCreateWalletManager` (the initialization check and the factory receive the
null pointer) and released by `cryptoSystemRelease`. -/
theorem C13_account_field_left_null :
    (∀ (env : Collaborators) (client : BRCryptoClient) (listener : BRCryptoListener)
        (account : BRCryptoAccount) (basePath : String) (onMainnet : Bool),
      (cryptoSystemCreate env client listener account basePath onMainnet).1.account = NULL ∧
      (∀ any, Effect.cryptoAccountTake any ∉
        (cryptoSystemCreate env client listener account basePath onMainnet).2)) ∧
    (cryptoSystemCreate sampleEnv 1 2 3 "base" true).1.account ≠ 3 ∧
    Effect.cryptoWalletManagerCreate 2 1 NULL 8 0 0 "base/id" ∈
      (cryptoSystemCreateWalletManager sampleEnv
        (cryptoSystemCreate sampleEnv 1 2 3 "base" true).1 8 0 0 []).2.2 ∧
    Effect.cryptoAccountGive NULL ∈
      (cryptoSystemRelease (cryptoSystemCreate sampleEnv 1 2 3 "base" true).1).2 := by
  refine ⟨?_, by decide, by decide, by decide⟩
  intro env client listener account basePath onMainnet
  refine ⟨rfl, ?_⟩
  intro any hmem
  simp [cryptoSystemCreate, cryptoSystemGenerateEvent] at hmem

/-- C14: for every System with prior state `old`, networks list `ns` and managers list
`ms`, `cryptoSystemRelease` sets the state to DELETED and makes these calls, in this
order: the delivery of `CHANGED (old, DELETED)` if and only if `old` differs from DELETED,
then one release per entry of `ns` in insertion order, then one release per entry of `ms`
in insertion order, then one release of the account field and one of the listener. -/
theorem C14_release_order (system : BRCryptoSystem) :
    (cryptoSystemRelease system).1.state = BRCryptoSystemState.CRYPTO_SYSTEM_STATE_DELETED ∧
    (cryptoSystemRelease system).2 =
      (if system.state = BRCryptoSystemState.CRYPTO_SYSTEM_STATE_DELETED then []
        else [Effect.cryptoListenerGenerateSystemEvent system.listener
          (BRCryptoSystemEvent.CRYPTO_SYSTEM_EVENT_CHANGED system.state
            BRCryptoSystemState.CRYPTO_SYSTEM_STATE_DELETED)]) ++
        system.networks.map Effect.cryptoNetworkGive ++
        system.managers.map Effect.cryptoWalletManagerGive ++
        [Effect.cryptoAccountGive system.account, Effect.cryptoListenerGive system.listener] ∧
    systemEvents (cryptoSystemRelease system).2 =
      (if system.state = BRCryptoSystemState.CRYPTO_SYSTEM_STATE_DELETED then []
        else [BRCryptoSystemEvent.CRYPTO_SYSTEM_EVENT_CHANGED system.state
          BRCryptoSystemState.CRYPTO_SYSTEM_STATE_DELETED]) ∧
    (cryptoSystemRelease system).2.filter Effect.isGive =
      system.networks.map Effect.cryptoNetworkGive ++
        system.managers.map Effect.cryptoWalletManagerGive ++
        [Effect.cryptoAccountGive system.account, Effect.cryptoListenerGive system.listener] := by
  have hfilter : ∀ (list : List Nat) (give : Nat → Effect),
      (∀ x, Effect.isGive (give x) = true) → (list.map give).filter Effect.isGive =
        list.map give := by
    intro list give hgive
    rw [List.filter_eq_self]
    intro effect hmem
    obtain ⟨x, -, rfl⟩ := List.mem_map.1 hmem
    exact hgive x
  have hevents : ∀ (list : List Nat) (give : Nat → Effect),
      (∀ x, Effect.asSystemEvent (give x) = none) → systemEvents (list.map give) = [] := by
    intro list give hgive
    simp only [systemEvents, List.filterMap_eq_nil_iff]
    intro effect hmem
    obtain ⟨x, -, rfl⟩ := List.mem_map.1 hmem
    exact hgive x
  have hn1 := hfilter system.networks Effect.cryptoNetworkGive (fun _ => rfl)
  have hm1 := hfilter system.managers Effect.cryptoWalletManagerGive (fun _ => rfl)
  have hn2 := hevents system.networks Effect.cryptoNetworkGive (fun _ => rfl)
  have hm2 := hevents system.managers Effect.cryptoWalletManagerGive (fun _ => rfl)
  simp only [systemEvents] at hn2 hm2
  by_cases h : system.state = BRCryptoSystemState.CRYPTO_SYSTEM_STATE_DELETED
  · have hset : cryptoSystemSetState system
        BRCryptoSystemState.CRYPTO_SYSTEM_STATE_DELETED = (system, []) := by
      simp only [cryptoSystemSetState, h]
      simp [← h]
    have hrel : cryptoSystemRelease system =
        (system,
          [] ++ system.networks.map Effect.cryptoNetworkGive ++
            system.managers.map Effect.cryptoWalletManagerGive ++
            [Effect.cryptoAccountGive system.account,
              Effect.cryptoListenerGive system.listener]) := by
      simp only [cryptoSystemRelease, hset, array_free_all]
    rw [hrel, if_pos h, if_pos h]
    refine ⟨h, rfl, ?_, ?_⟩
    · simp only [systemEvents, List.filterMap_append, hn2, hm2]
      rfl
    · simp only [List.filter_append, hn1, hm1]
      rfl
  · have hset : cryptoSystemSetState system
        BRCryptoSystemState.CRYPTO_SYSTEM_STATE_DELETED =
        ({ system with state := BRCryptoSystemState.CRYPTO_SYSTEM_STATE_DELETED },
          [Effect.cryptoListenerGenerateSystemEvent system.listener
            (BRCryptoSystemEvent.CRYPTO_SYSTEM_EVENT_CHANGED system.state
              BRCryptoSystemState.CRYPTO_SYSTEM_STATE_DELETED)]) := by
      simp only [cryptoSystemSetState, cryptoSystemGenerateEvent]
      rw [if_pos h]
    have hrel : cryptoSystemRelease system =
        ({ system with state := BRCryptoSystemState.CRYPTO_SYSTEM_STATE_DELETED },
          [Effect.cryptoListenerGenerateSystemEvent system.listener
            (BRCryptoSystemEvent.CRYPTO_SYSTEM_EVENT_CHANGED system.state
              BRCryptoSystemState.CRYPTO_SYSTEM_STATE_DELETED)] ++
            system.networks.map Effect.cryptoNetworkGive ++
            system.managers.map Effect.cryptoWalletManagerGive ++
            [Effect.cryptoAccountGive system.account,
              Effect.cryptoListenerGive system.listener]) := by
      simp only [cryptoSystemRelease, hset, array_free_all]
    rw [hrel, if_neg h, if_neg h]
    refine ⟨rfl, rfl, ?_, ?_⟩
    · simp only [systemEvents, List.filterMap_append, hn2, hm2]
      rfl
    · simp only [List.filter_append, hn1, hm1]
      rfl

/-! ## The state is not consulted -/

theorem addNetwork_state (system : BRCryptoSystem) (network : BRCryptoNetwork) :
    (cryptoSystemAddNetwork system network).1.state = system.state := by
  unfold cryptoSystemAddNetwork
  split <;> rfl

theorem remNetwork_state (system : BRCryptoSystem) (network : BRCryptoNetwork) :
    (cryptoSystemRemNetwork system network).1.state = system.state := by
  unfold cryptoSystemRemNetwork
  split <;> rfl

theorem addWalletManager_state (system : BRCryptoSystem) (manager : BRCryptoWalletManager) :
    (cryptoSystemAddWalletManager system manager).1.state = system.state := by
  unfold cryptoSystemAddWalletManager
  split <;> rfl

theorem remWalletManager_state (system : BRCryptoSystem) (manager : BRCryptoWalletManager) :
    (cryptoSystemRemWalletManager system manager).1.state = system.state := by
  unfold cryptoSystemRemWalletManager
  split <;> rfl

theorem createWalletManager_state (env : Collaborators) (system : BRCryptoSystem)
    (network : BRCryptoNetwork) (mode : BRCryptoSyncMode) (scheme : BRCryptoAddressScheme)
    (currencies : List BRCryptoCurrency) :
    (cryptoSystemCreateWalletManager env system network mode scheme currencies).2.1.state =
      system.state := by
  unfold cryptoSystemCreateWalletManager
  split
  · rfl
  · exact addWalletManager_state _ _

theorem createWalletManager_managers (env : Collaborators) (system : BRCryptoSystem)
    (network : BRCryptoNetwork) (mode : BRCryptoSyncMode) (scheme : BRCryptoAddressScheme)
    (currencies : List BRCryptoCurrency)
    (h : env.cryptoNetworkIsAccountInitialized network system.account = true) :
    (cryptoSystemCreateWalletManager env system network mode scheme currencies).2.1.managers =
      referenceApply system.managers
        (RegistryOp.add (factoryManager env system network mode scheme)) := by
  simp only [cryptoSystemCreateWalletManager, h, Bool.true_eq_false, if_false]
  exact addWalletManager_managers _ _

/-- C15, as stated, fails: a System whose state was set to DELETED still takes a new
network, and `cryptoSystemSetState` moves it from DELETED back to CREATED. -/
theorem C15_counterexample_deleted_system_mutates :
    (cryptoSystemSetState freshSystem
      BRCryptoSystemState.CRYPTO_SYSTEM_STATE_DELETED).1.state =
        BRCryptoSystemState.CRYPTO_SYSTEM_STATE_DELETED ∧
    (cryptoSystemAddNetwork
        (cryptoSystemSetState freshSystem
          BRCryptoSystemState.CRYPTO_SYSTEM_STATE_DELETED).1 7).1.networks ≠
      (cryptoSystemSetState freshSystem
        BRCryptoSystemState.CRYPTO_SYSTEM_STATE_DELETED).1.networks ∧
    (cryptoSystemAddWalletManager
        (cryptoSystemSetState freshSystem
          BRCryptoSystemState.CRYPTO_SYSTEM_STATE_DELETED).1 9).1.managers ≠
      (cryptoSystemSetState freshSystem
        BRCryptoSystemState.CRYPTO_SYSTEM_STATE_DELETED).1.managers ∧
    (cryptoSystemSetState
        (cryptoSystemSetState freshSystem
          BRCryptoSystemState.CRYPTO_SYSTEM_STATE_DELETED).1
        BRCryptoSystemState.CRYPTO_SYSTEM_STATE_CREATED).1.state ≠
      BRCryptoSystemState.CRYPTO_SYSTEM_STATE_DELETED := by
  refine ⟨by decide, by decide, by decide, by decide⟩

/-- C15, amended: the operations do not consult the state. For every System whose state
is DELETED, `cryptoSystemAddNetwork`, `cryptoSystemRemNetwork`,
`cryptoSystemAddWalletManager`, `cryptoSystemRemWalletManager` and
`cryptoSystemCreateWalletManager` leave the state DELETED and change the networks and
managers lists exactly as in any other state (an add appends the handle if absent, a
remove erases it, a manager is built and registered when the account is initialized for
the network, and nothing changes when it is not); `cryptoSystemSetState s` installs `s`
whatever it is. -/
theorem C15_state_not_consulted (env : Collaborators) (system : BRCryptoSystem)
    (network : BRCryptoNetwork) (manager : BRCryptoWalletManager) (mode : BRCryptoSyncMode)
    (scheme : BRCryptoAddressScheme) (currencies : List BRCryptoCurrency)
    (state : BRCryptoSystemState)
    (h : system.state = BRCryptoSystemState.CRYPTO_SYSTEM_STATE_DELETED) :
    ((cryptoSystemAddNetwork system network).1.state =
        BRCryptoSystemState.CRYPTO_SYSTEM_STATE_DELETED ∧
      (cryptoSystemRemNetwork system network).1.state =
        BRCryptoSystemState.CRYPTO_SYSTEM_STATE_DELETED ∧
      (cryptoSystemAddWalletManager system manager).1.state =
        BRCryptoSystemState.CRYPTO_SYSTEM_STATE_DELETED ∧
      (cryptoSystemRemWalletManager system manager).1.state =
        BRCryptoSystemState.CRYPTO_SYSTEM_STATE_DELETED ∧
      (cryptoSystemCreateWalletManager env system network mode scheme
        currencies).2.1.state = BRCryptoSystemState.CRYPTO_SYSTEM_STATE_DELETED) ∧
    ((cryptoSystemAddNetwork system network).1.networks =
        referenceApply system.networks (RegistryOp.add network) ∧
      (cryptoSystemRemNetwork system network).1.networks =
        referenceApply system.networks (RegistryOp.rem network) ∧
      (cryptoSystemAddWalletManager system manager).1.managers =
        referenceApply system.managers (RegistryOp.add manager) ∧
      (cryptoSystemRemWalletManager system manager).1.managers =
        referenceApply system.managers (RegistryOp.rem manager)) ∧
    (env.cryptoNetworkIsAccountInitialized network system.account = true →
      (cryptoSystemCreateWalletManager env system network mode scheme
          currencies).2.1.managers =
        referenceApply system.managers
          (RegistryOp.add (factoryManager env system network mode scheme))) ∧
    (env.cryptoNetworkIsAccountInitialized network system.account = false →
      (cryptoSystemCreateWalletManager env system network mode scheme
          currencies).2.1 = system) ∧
    (cryptoSystemSetState system state).1.state = state := by
  refine ⟨⟨?_, ?_, ?_, ?_, ?_⟩, ⟨addNetwork_networks _ _, remNetwork_networks _ _,
    addWalletManager_managers _ _, remWalletManager_managers _ _⟩,
    createWalletManager_managers env system network mode scheme currencies, ?_, ?_⟩
  · rw [addNetwork_state, h]
  · rw [remNetwork_state, h]
  · rw [addWalletManager_state, h]
  · rw [remWalletManager_state, h]
  · rw [createWalletManager_state, h]
  · intro hinit
    simp [cryptoSystemCreateWalletManager, hinit]
  · simp only [cryptoSystemSetState]
    split <;> rfl

/-- Instance of C15: the sample System in state DELETED takes network 7 and a manager for
network 8. -/
theorem C15_state_not_consulted_witness :
    (deletedSystem.state = BRCryptoSystemState.CRYPTO_SYSTEM_STATE_DELETED ∧
      sampleEnv.cryptoNetworkIsAccountInitialized 8 deletedSystem.account = true) ∧
    (cryptoSystemAddNetwork deletedSystem 7).1.networks =
      referenceApply deletedSystem.networks (RegistryOp.add 7) ∧
    (cryptoSystemCreateWalletManager sampleEnv deletedSystem 8 0 0 []).2.1.managers =
      referenceApply deletedSystem.managers
        (RegistryOp.add (factoryManager sampleEnv deletedSystem 8 0 0)) ∧
    (cryptoSystemSetState deletedSystem
      BRCryptoSystemState.CRYPTO_SYSTEM_STATE_CREATED).1.state =
        BRCryptoSystemState.CRYPTO_SYSTEM_STATE_CREATED :=
  ⟨⟨rfl, by decide⟩,
    (C15_state_not_consulted sampleEnv deletedSystem 7 9 0 0 []
      BRCryptoSystemState.CRYPTO_SYSTEM_STATE_CREATED rfl).2.1.1,
    (C15_state_not_consulted sampleEnv deletedSystem 8 9 0 0 []
      BRCryptoSystemState.CRYPTO_SYSTEM_STATE_CREATED rfl).2.2.1 (by decide),
    (C15_state_not_consulted sampleEnv deletedSystem 7 9 0 0 []
      BRCryptoSystemState.CRYPTO_SYSTEM_STATE_CREATED rfl).2.2.2.2⟩

/-- C16: for every System and flag `f`, after `cryptoSystemSetReachable f`
`cryptoSystemIsReachable` returns `f`; the calls made are the set-network-reachable calls
carrying `f`, one per entry of the managers list, in order, and nothing else, so every
registered manager receives exactly one (the list holding no manager twice) and no other
manager receives any; the managers list, the networks list and the state are unchanged and
no System event is emitted. -/
theorem C16_setReachable_fanout (system : BRCryptoSystem) (flag : Bool) :
    cryptoSystemIsReachable (cryptoSystemSetReachable system flag).1 = flag ∧
    (cryptoSystemSetReachable system flag).2 =
      system.managers.map
        (fun manager => Effect.cryptoWalletManagerSetNetworkReachable manager flag) ∧
    (system.managers.Nodup → ∀ manager, manager ∈ system.managers →
      (cryptoSystemSetReachable system flag).2.count
        (Effect.cryptoWalletManagerSetNetworkReachable manager flag) = 1) ∧
    (∀ manager value,
      Effect.cryptoWalletManagerSetNetworkReachable manager value ∈
          (cryptoSystemSetReachable system flag).2 →
        manager ∈ system.managers ∧ value = flag) ∧
    (cryptoSystemSetReachable system flag).1.managers = system.managers ∧
    (cryptoSystemSetReachable system flag).1.networks = system.networks ∧
    (cryptoSystemSetReachable system flag).1.state = system.state ∧
    systemEvents (cryptoSystemSetReachable system flag).2 = [] := by
  refine ⟨rfl, rfl, ?_, ?_, rfl, rfl, rfl, ?_⟩
  · intro hnd manager hmem
    exact count_map_of_nodup
      (fun manager => Effect.cryptoWalletManagerSetNetworkReachable manager flag)
      (fun a b hab => by injection hab) hnd hmem
  · intro manager value hmem
    obtain ⟨entry, hentry, heq⟩ := List.mem_map.1
      (show Effect.cryptoWalletManagerSetNetworkReachable manager value ∈
        system.managers.map
          (fun manager => Effect.cryptoWalletManagerSetNetworkReachable manager flag)
        from hmem)
    injection heq with h1 h2
    exact ⟨h1 ▸ hentry, h2.symm⟩
  · show systemEvents (system.managers.map
      (fun manager => Effect.cryptoWalletManagerSetNetworkReachable manager flag)) = []
    simp only [systemEvents, List.filterMap_eq_nil_iff]
    intro effect hmem
    obtain ⟨entry, -, rfl⟩ := List.mem_map.1 hmem
    rfl

/-- Instance of C16: the sample System holds managers 104 and 106, each once. -/
theorem C16_setReachable_fanout_witness :
    (sampleSystem.managers.Nodup ∧ 106 ∈ sampleSystem.managers) ∧
    (cryptoSystemSetReachable sampleSystem false).2.count
      (Effect.cryptoWalletManagerSetNetworkReachable 106 false) = 1 :=
  ⟨⟨by decide, by decide⟩,
    (C16_setReachable_fanout sampleSystem false).2.2.1 (by decide) 106 (by decide)⟩

/-! ## Reference handling, wallets, names and frames -/

/-- C17: reference handling of add and remove is asymmetric. `cryptoSystemAddNetwork` of an
absent network `n` appends `n` and makes exactly these calls: an acquisition on `n` (the
reference the list holds), a second acquisition on `n` (the reference the event carries)
and the delivery of `NETWORK_ADDED n`; so two acquisitions on `n` and no release.
`cryptoSystemRemNetwork` of a present network `n` makes exactly one call, the delivery of
`NETWORK_DELETED n`, `n` being the handle of the entry erased: no acquisition and no
release. The same holds for managers with `MANAGER_ADDED` / `MANAGER_DELETED`. -/
theorem C17_reference_asymmetry (system : BRCryptoSystem) (network : BRCryptoNetwork)
    (manager : BRCryptoWalletManager) :
    (network ∉ system.networks →
      (cryptoSystemAddNetwork system network).1.networks = system.networks ++ [network] ∧
      (cryptoSystemAddNetwork system network).2 =
        [Effect.cryptoNetworkTake network, Effect.cryptoNetworkTake network,
          Effect.cryptoListenerGenerateSystemEvent system.listener
            (BRCryptoSystemEvent.CRYPTO_SYSTEM_EVENT_NETWORK_ADDED network)] ∧
      (cryptoSystemAddNetwork system network).2.count (Effect.cryptoNetworkTake network) = 2 ∧
      (cryptoSystemAddNetwork system network).2.filter Effect.isGive = []) ∧
    (network ∈ system.networks →
      (cryptoSystemRemNetwork system network).1.networks = system.networks.erase network ∧
      (cryptoSystemRemNetwork system network).2 =
        [Effect.cryptoListenerGenerateSystemEvent system.listener
          (BRCryptoSystemEvent.CRYPTO_SYSTEM_EVENT_NETWORK_DELETED network)] ∧
      (cryptoSystemRemNetwork system network).2.filter Effect.isTake = [] ∧
      (cryptoSystemRemNetwork system network).2.filter Effect.isGive = []) ∧
    (manager ∉ system.managers →
      (cryptoSystemAddWalletManager system manager).1.managers =
        system.managers ++ [manager] ∧
      (cryptoSystemAddWalletManager system manager).2 =
        [Effect.cryptoWalletManagerTake manager, Effect.cryptoWalletManagerTake manager,
          Effect.cryptoListenerGenerateSystemEvent system.listener
            (BRCryptoSystemEvent.CRYPTO_SYSTEM_EVENT_MANAGER_ADDED manager)] ∧
      (cryptoSystemAddWalletManager system manager).2.count
        (Effect.cryptoWalletManagerTake manager) = 2 ∧
      (cryptoSystemAddWalletManager system manager).2.filter Effect.isGive = []) ∧
    (manager ∈ system.managers →
      (cryptoSystemRemWalletManager system manager).1.managers =
        system.managers.erase manager ∧
      (cryptoSystemRemWalletManager system manager).2 =
        [Effect.cryptoListenerGenerateSystemEvent system.listener
          (BRCryptoSystemEvent.CRYPTO_SYSTEM_EVENT_MANAGER_DELETED manager)] ∧
      (cryptoSystemRemWalletManager system manager).2.filter Effect.isTake = [] ∧
      (cryptoSystemRemWalletManager system manager).2.filter Effect.isGive = []) := by
  refine ⟨?_, ?_, ?_, ?_⟩
  · intro habs
    have hhas : cryptoSystemHasNetwork system network = false := by
      cases hb : cryptoSystemHasNetwork system network
      · rfl
      · exact absurd ((hasNetwork_iff _ _).1 hb) habs
    have hadd : cryptoSystemAddNetwork system network =
        ({ system with networks := system.networks ++ [network] },
          [Effect.cryptoNetworkTake network, Effect.cryptoNetworkTake network,
            Effect.cryptoListenerGenerateSystemEvent system.listener
              (BRCryptoSystemEvent.CRYPTO_SYSTEM_EVENT_NETWORK_ADDED network)]) := by
      simp [cryptoSystemAddNetwork, hhas, array_add]
    rw [hadd]
    exact ⟨rfl, rfl, by simp, rfl⟩
  · intro hmem
    cases hscan : cryptoSystemHasNetworkFor system network with
    | none => exact absurd hmem ((arrayScanFrom_none _ _ _).1 hscan)
    | some index =>
      have hrm := (array_rm_of_scan hscan).2
      have hrem : cryptoSystemRemNetwork system network =
          ({ system with networks := system.networks.erase network },
            [Effect.cryptoListenerGenerateSystemEvent system.listener
              (BRCryptoSystemEvent.CRYPTO_SYSTEM_EVENT_NETWORK_DELETED network)]) := by
        simp [cryptoSystemRemNetwork, hscan, hrm]
      rw [hrem]
      exact ⟨rfl, rfl, rfl, rfl⟩
  · intro habs
    have hhas : cryptoSystemHasWalletManager system manager = false := by
      cases hb : cryptoSystemHasWalletManager system manager
      · rfl
      · exact absurd ((hasWalletManager_iff _ _).1 hb) habs
    have hadd : cryptoSystemAddWalletManager system manager =
        ({ system with managers := system.managers ++ [manager] },
          [Effect.cryptoWalletManagerTake manager, Effect.cryptoWalletManagerTake manager,
            Effect.cryptoListenerGenerateSystemEvent system.listener
              (BRCryptoSystemEvent.CRYPTO_SYSTEM_EVENT_MANAGER_ADDED manager)]) := by
      simp [cryptoSystemAddWalletManager, hhas, array_add]
    rw [hadd]
    exact ⟨rfl, rfl, by simp, rfl⟩
  · intro hmem
    cases hscan : cryptoSystemHasWalletManagerFor system manager with
    | none => exact absurd hmem ((arrayScanFrom_none _ _ _).1 hscan)
    | some index =>
      have hrm := (array_rm_of_scan hscan).2
      have hrem : cryptoSystemRemWalletManager system manager =
          ({ system with managers := system.managers.erase manager },
            [Effect.cryptoListenerGenerateSystemEvent system.listener
              (BRCryptoSystemEvent.CRYPTO_SYSTEM_EVENT_MANAGER_DELETED manager)]) := by
        simp [cryptoSystemRemWalletManager, hscan, hrm]
      rw [hrem]
      exact ⟨rfl, rfl, rfl, rfl⟩

/-- Instance of C17: on the sample System network 7 and manager 109 are absent, network 5
and manager 104 are present. -/
theorem C17_reference_asymmetry_witness :
    (7 ∉ sampleSystem.networks ∧ 5 ∈ sampleSystem.networks ∧
      109 ∉ sampleSystem.managers ∧ 104 ∈ sampleSystem.managers) ∧
    (cryptoSystemAddNetwork sampleSystem 7).2.count (Effect.cryptoNetworkTake 7) = 2 ∧
    (cryptoSystemRemNetwork sampleSystem 5).2.filter Effect.isTake = [] ∧
    (cryptoSystemAddWalletManager sampleSystem 109).2.count
      (Effect.cryptoWalletManagerTake 109) = 2 ∧
    (cryptoSystemRemWalletManager sampleSystem 104).2.filter Effect.isGive = [] :=
  ⟨⟨by decide, by decide, by decide, by decide⟩,
    ((C17_reference_asymmetry sampleSystem 7 109).1 (by decide)).2.2.1,
    ((C17_reference_asymmetry sampleSystem 5 104).2.1 (by decide)).2.2.1,
    ((C17_reference_asymmetry sampleSystem 7 109).2.2.1 (by decide)).2.2.1,
    ((C17_reference_asymmetry sampleSystem 5 104).2.2.2 (by decide)).2.2.2⟩

theorem createWalletCalls_loop (env : Collaborators) (network : BRCryptoNetwork)
    (manager : BRCryptoWalletManager) (currencies : List BRCryptoCurrency) :
    createWalletCalls (createWalletsLoop env network manager currencies) =
      (currencies.filter (env.cryptoNetworkHasCurrency network)).map
        (fun currency => (manager, currency)) := by
  induction currencies with
  | nil => rfl
  | cons currency rest ih =>
    simp only [createWalletsLoop]
    by_cases h : env.cryptoNetworkHasCurrency network currency = true
    · rw [if_pos h, List.filter_cons_of_pos h, List.map_cons, ← ih]
      rfl
    · rw [if_neg h, List.filter_cons_of_neg h, ih]

theorem createWalletCalls_addWalletManager (system : BRCryptoSystem)
    (manager : BRCryptoWalletManager) :
    createWalletCalls (cryptoSystemAddWalletManager system manager).2 = [] := by
  unfold cryptoSystemAddWalletManager
  split <;> rfl

/-- C18: on a successful `cryptoSystemCreateWalletManager` with requested currencies
`c_0 .. c_(k-1)`, the create-wallet calls made are, in order, on the new manager and for
exactly the requested currencies for which the network's has-currency predicate is true,
in request order and with repeats kept; an unsupported currency causes no call and no
failure (the manager is returned all the same), and with no requested currency no
create-wallet call is made. -/
theorem C18_wallets_for_supported_currencies (env : Collaborators) (system : BRCryptoSystem)
    (network : BRCryptoNetwork) (mode : BRCryptoSyncMode) (scheme : BRCryptoAddressScheme)
    (currencies : List BRCryptoCurrency)
    (h : env.cryptoNetworkIsAccountInitialized network system.account = true) :
    createWalletCalls
        (cryptoSystemCreateWalletManager env system network mode scheme currencies).2.2 =
      (currencies.filter (env.cryptoNetworkHasCurrency network)).map
        (fun currency => (factoryManager env system network mode scheme, currency)) ∧
    (cryptoSystemCreateWalletManager env system network mode scheme currencies).1 =
      factoryManager env system network mode scheme ∧
    (∀ currency, env.cryptoNetworkHasCurrency network currency = false →
      ∀ anyManager, (anyManager, currency) ∉
        createWalletCalls
          (cryptoSystemCreateWalletManager env system network mode scheme currencies).2.2) ∧
    createWalletCalls
      (cryptoSystemCreateWalletManager env system network mode scheme []).2.2 = [] := by
  have hcalls : ∀ requested : List BRCryptoCurrency,
      createWalletCalls
          (cryptoSystemCreateWalletManager env system network mode scheme requested).2.2 =
        (requested.filter (env.cryptoNetworkHasCurrency network)).map
          (fun currency => (factoryManager env system network mode scheme, currency)) := by
    intro requested
    have hloop := createWalletCalls_loop env network
      (factoryManager env system network mode scheme) requested
    have hadd := createWalletCalls_addWalletManager system
      (factoryManager env system network mode scheme)
    simp only [createWalletCalls] at hloop hadd
    simp only [cryptoSystemCreateWalletManager, h, Bool.true_eq_false, if_false,
      createWalletCalls, List.filterMap_append]
    rw [show env.cryptoWalletManagerCreate
        (env.cryptoListenerCreateWalletManagerListener system.listener system)
        system.client system.account network mode scheme system.path =
        factoryManager env system network mode scheme from rfl, hloop, hadd]
    rfl
  refine ⟨hcalls currencies, ?_, ?_, ?_⟩
  · simp only [cryptoSystemCreateWalletManager, h, Bool.true_eq_false, if_false]
    rfl
  · intro currency hno anyManager hmem
    rw [hcalls currencies] at hmem
    obtain ⟨c, hc, heq⟩ := List.mem_map.1 hmem
    have hc2 := (List.mem_filter.1 hc).2
    injection heq with h1 h2
    rw [h2, hno] at hc2
    cases hc2
  · rw [hcalls []]
    rfl

/-- Instance of C18: network 8 has the currencies below 8; of the requested 1, 9, 3, 1 the
currency 9 is skipped. -/
theorem C18_wallets_for_supported_currencies_witness :
    sampleEnv.cryptoNetworkIsAccountInitialized 8 sampleSystem.account = true ∧
    createWalletCalls
        (cryptoSystemCreateWalletManager sampleEnv sampleSystem 8 0 0 [1, 9, 3, 1]).2.2 =
      ([1, 9, 3, 1].filter (sampleEnv.cryptoNetworkHasCurrency 8)).map
        (fun currency => (factoryManager sampleEnv sampleSystem 8 0 0, currency)) :=
  ⟨by decide,
    (C18_wallets_for_supported_currencies sampleEnv sampleSystem 8 0 0 [1, 9, 3, 1]
      (by decide)).1⟩

theorem eventTypeStringAt_none_iff (index : Nat) :
    cryptoSystemEventTypeStringAt index = none ↔ 1 ≤ index := by
  cases index with
  | zero => simp [cryptoSystemEventTypeStringAt, cryptoSystemEventTypeStringNames]
  | succ k => simp [cryptoSystemEventTypeStringAt, cryptoSystemEventTypeStringNames]

/-- Whatever integer values the header gives the enumerators, as long as distinct
enumerators have distinct values, of two distinct event types at least one is read outside
the table. -/
theorem eventTypeString_any_numbering (code : BRCryptoSystemEventType → Nat)
    (hcode : Function.Injective code) (a b : BRCryptoSystemEventType) (hab : a ≠ b) :
    cryptoSystemEventTypeStringAt (code a) = none ∨
      cryptoSystemEventTypeStringAt (code b) = none := by
  rw [eventTypeStringAt_none_iff, eventTypeStringAt_none_iff]
  by_contra hboth
  have ha : code a = 0 := by omega
  have hb : code b = 0 := by omega
  exact hab (hcode (ha.trans hb.symm))

/-- C19, what the code does: the table `names` has one entry, so only the event type of
integer value 0 (CREATED) is read inside the table, and the name read for it is that of a
wallet event; for CHANGED, NETWORK_ADDED, NETWORK_DELETED, MANAGER_ADDED and
MANAGER_DELETED the read `names [type]` is outside the table. -/
theorem C19_names_table_too_short :
    cryptoSystemEventTypeStringNames.length = 1 ∧
    cryptoSystemEventTypeString BRCryptoSystemEventType.CRYPTO_SYSTEM_EVENT_CREATED =
      some "CRYPTO_WALLET_EVENT_CREATED" ∧
    cryptoSystemEventTypeString BRCryptoSystemEventType.CRYPTO_SYSTEM_EVENT_CHANGED = none ∧
    cryptoSystemEventTypeString BRCryptoSystemEventType.CRYPTO_SYSTEM_EVENT_NETWORK_ADDED =
      none ∧
    cryptoSystemEventTypeString BRCryptoSystemEventType.CRYPTO_SYSTEM_EVENT_NETWORK_DELETED =
      none ∧
    cryptoSystemEventTypeString BRCryptoSystemEventType.CRYPTO_SYSTEM_EVENT_MANAGER_ADDED =
      none ∧
    cryptoSystemEventTypeString BRCryptoSystemEventType.CRYPTO_SYSTEM_EVENT_MANAGER_DELETED =
      none ∧
    cryptoSystemEventTypeString
      (BRCryptoSystemEvent.type
        (BRCryptoSystemEvent.CRYPTO_SYSTEM_EVENT_NETWORK_ADDED 4)) = none :=
  ⟨rfl, rfl, rfl, rfl, rfl, rfl, rfl, rfl⟩

/-- C20: frame of the registry operations. `cryptoSystemAddNetwork` and
`cryptoSystemRemNetwork` change no field but `networks` (so not the managers list, the
state, `isReachable`, `onMainnet`, the client, the account or the path);
`cryptoSystemAddWalletManager` and `cryptoSystemRemWalletManager` change no field but
`managers`; `cryptoSystemSetState` changes only the state field; and the has / get /
lookup operations, `cryptoSystemConnect` and `cryptoSystemDisconnect` change no field. -/
theorem C20_frame (env : Collaborators) (system : BRCryptoSystem)
    (network : BRCryptoNetwork) (manager : BRCryptoWalletManager)
    (state : BRCryptoSystemState) (query : SystemQuery) (index : Nat) (uids : String) :
    ((cryptoSystemAddNetwork system network).1 =
        { system with networks := (cryptoSystemAddNetwork system network).1.networks } ∧
      (cryptoSystemRemNetwork system network).1 =
        { system with networks := (cryptoSystemRemNetwork system network).1.networks }) ∧
    ((cryptoSystemAddWalletManager system manager).1 =
        { system with managers := (cryptoSystemAddWalletManager system manager).1.managers } ∧
      (cryptoSystemRemWalletManager system manager).1 =
        { system with
          managers := (cryptoSystemRemWalletManager system manager).1.managers }) ∧
    (cryptoSystemSetState system state).1 = { system with state := state } ∧
    (query.run env system).1 = system ∧
    ((cryptoSystemGetNetworks system).2.1 = system ∧
      (cryptoSystemGetNetworkAt system index).2.1 = system ∧
      (cryptoSystemGetNetworkForUids env system uids).2.1 = system ∧
      (cryptoSystemGetWalletManagers system).2.1 = system ∧
      (cryptoSystemGetWalletManagerAt system index).2.1 = system ∧
      (cryptoSystemConnect system).1 = system ∧
      (cryptoSystemDisconnect system).1 = system) := by
  have hgn : (cryptoSystemGetNetworks system).2.1 = system := by rw [getNetworks_eq]
  have hgm : (cryptoSystemGetWalletManagers system).2.1 = system := by
    rw [getWalletManagers_eq]
  refine ⟨⟨?_, ?_⟩, ⟨?_, ?_⟩, ?_, ?_, ⟨hgn, rfl, rfl, hgm, rfl, rfl, rfl⟩⟩
  · unfold cryptoSystemAddNetwork
    split <;> rfl
  · unfold cryptoSystemRemNetwork
    split <;> rfl
  · unfold cryptoSystemAddWalletManager
    split <;> rfl
  · unfold cryptoSystemRemWalletManager
    split <;> rfl
  · simp only [cryptoSystemSetState]
    split <;> rfl
  · cases query with
    | getNetworks => exact hgn
    | getWalletManagers => exact hgm
    | _ => rfl

end WalletKit
